import Mathlib

/-!
Verification of the gofile-downloader program (src/gofile-downloader.py).

This file gives a shallow embedding of the parts of the program the frozen
claims are about:

* the recursive content-tree resolver `_parse_links_recursively`
  (dedup pass included), lines 566-668 of the source;
* the per-file transfer engine `_download_content`, lines 270-563,
  modelled as a deterministic function of an environment that supplies
  the HTTP responses, the fresh-link answers and the stop-flag schedule;
* the driver `_download` (lines 696-793, non-interactive path) and
  `Main.run` (lines 94-123).

Strings are modelled as `List Char` (named `Str`), filesystem paths as
`List Str` (one component per directory level, final component the file
name), and the filesystem itself as a map from paths to `Option Nat`
(`some n` = a file of `n` bytes exists, `none` = no file).  Directories
are not tracked: the program only ever creates them idempotently, and no
claim depends on them.
-/

namespace GFD

/-- Strings of the model: plain lists of characters. -/
abbrev Str := List Char

/-- A filesystem path: directory components followed by a file name. -/
abbrev FPath := List Str

/-! ### pathlib stem/suffix (used by the dedup rename and the Singles rename)

`PurePath.suffix` in CPython: the part of the name from the last dot on,
provided that dot is neither the first character nor the last; otherwise
empty.  `stem` is the complement, and `with_stem(s)` is `s + suffix`. -/

/-- Index (from the head) of the rightmost '.' in a name, if any. -/
def lastDotPos : Str → Option Nat
  | [] => none
  | c :: cs =>
    match lastDotPos cs with
    | some j => some (j + 1)
    | none => if c = '.' then some 0 else none

/-- The split index of pathlib: position of the suffix dot when the dot is
neither leading nor trailing, otherwise the whole length (empty suffix). -/
def pySplitIdx (name : Str) : Nat :=
  match lastDotPos name with
  | some i => if 0 < i ∧ i + 1 < name.length then i else name.length
  | none => name.length

/-- pathlib `stem`. -/
def pyStem (name : Str) : Str := name.take (pySplitIdx name)

/-- pathlib `suffix`. -/
def pySuffix (name : Str) : Str := name.drop (pySplitIdx name)

/-- The collision rename of the source (lines 666-668 and 749-751):
`"<stem> (<first 8 chars of the remote id>)<suffix>"`. -/
def rename (name fid : Str) : Str :=
  pyStem name ++ [' ', '('] ++ fid.take 8 ++ [')'] ++ pySuffix name

/-! ### File records and the global dedup pass (lines 656-668) -/

/-- One entry of `self._files_info` (the `FileInfo` TypedDict of line 21):
target directory, file name, download link, remote id.  The dict is keyed
by the traversal index; insertion order is kept, so a list models it. -/
structure FileRec where
  path : FPath
  filename : Str
  link : Str
  fid : Str
deriving DecidableEq, Repr

/-- Number of records carrying a given filename (lines 657-660). -/
def count (name : Str) (files : List FileRec) : Nat :=
  (files.filter (fun r => r.filename = name)).length

/-- The body of the rename loop (lines 663-668): a record is renamed
exactly when its filename occurs more than once in the whole set. -/
def dedupRenameOne (files : List FileRec) (item : FileRec) : FileRec :=
  if 1 < count item.filename files then
    { item with filename := rename item.filename item.fid }
  else item

/-- The global dedup pass over all accumulated records (lines 656-668). -/
def dedup (files : List FileRec) : List FileRec :=
  files.map (dedupRenameOne files)

/-! ### The remote content tree and `_parse_links_recursively` -/

mutual
/-- A node of the remote content tree, as returned by the metadata API:
either a leaf file (id, name, download link) or a folder with children. -/
inductive GNode where
  | gfile (fid name link : Str)
  | gfolder (fid name : Str) (children : GForest)
/-- The ordered children of a folder. -/
inductive GForest where
  | nil
  | cons (child : GNode) (rest : GForest)
end

/-- `current_path.name` of the source (line 621). -/
def lastName (p : FPath) : Str := p.getLast?.getD []

mutual
/-- `_parse_links_recursively` (lines 566-668), success path: walk the
node, append a record per leaf file, and run the global dedup pass at the
end of every invocation (lines 656-668 execute on every call). -/
def parse_links_recursively : GNode → FPath → List FileRec → List FileRec
  | GNode.gfile fid name link, current_path, files =>
      -- lines 646-654: a root that is directly a file
      dedup (files ++ [⟨current_path, name, link, fid⟩])
  | GNode.gfolder _ name children, current_path, files =>
      -- lines 618-628: nest only when the folder name differs from the
      -- name of the current directory
      dedup (parseKids children
        (if name = lastName current_path then current_path
         else current_path ++ [name]) files)
/-- The loop over `data["children"]` (lines 631-645): file children are
appended inline, folder children recurse. -/
def parseKids : GForest → FPath → List FileRec → List FileRec
  | GForest.nil, _, files => files
  | GForest.cons (GNode.gfile fid cname clink) rest, folder_path, files =>
      parseKids rest folder_path (files ++ [⟨folder_path, cname, clink, fid⟩])
  | GForest.cons (GNode.gfolder i n ch) rest, folder_path, files =>
      parseKids rest folder_path
        (parse_links_recursively (GNode.gfolder i n ch) folder_path files)
end

/-! Reference definitions for the refinement claim C5.  These follow the
SPEC's words ("deduplication as one pure pass over the complete set rather
than interleaved with traversal"): accumulate all records with no
intermediate dedup, then dedup once at the end. -/

mutual
/-- Record accumulation with no dedup at all (spec-side definition). -/
def accumNode : GNode → FPath → List FileRec → List FileRec
  | GNode.gfile fid name link, current_path, files =>
      files ++ [⟨current_path, name, link, fid⟩]
  | GNode.gfolder _ name children, current_path, files =>
      accumKids children
        (if name = lastName current_path then current_path
         else current_path ++ [name]) files
/-- Child loop of the accumulation-only walk (spec-side definition). -/
def accumKids : GForest → FPath → List FileRec → List FileRec
  | GForest.nil, _, files => files
  | GForest.cons (GNode.gfile fid cname clink) rest, folder_path, files =>
      accumKids rest folder_path (files ++ [⟨folder_path, cname, clink, fid⟩])
  | GForest.cons (GNode.gfolder i n ch) rest, folder_path, files =>
      accumKids rest folder_path
        (accumNode (GNode.gfolder i n ch) folder_path files)
end

/-- "One pure dedup pass over the complete set at the end of traversal",
the spec-side reference the code is compared against in claim C5. -/
def specSinglePassRecords (t : GNode) (p : FPath) : List FileRec :=
  dedup (accumNode t p [])

/-- All children of a forest are leaf files (a flat folder). -/
def allFiles : GForest → Bool
  | GForest.nil => true
  | GForest.cons (GNode.gfile _ _ _) rest => allFiles rest
  | GForest.cons (GNode.gfolder _ _ _) _ => false

/-! ### The transfer engine `_download_content` (lines 270-563)

The engine is a deterministic function of
* the file record data (target directory, filename, remote id, link),
* the initial filesystem,
* an environment `DLEnv` supplying the `i`-th HTTP response, the `i`-th
  fresh-link answer, and the time at which the shared stop flag becomes
  set (`stopAt`, measured on an event clock that ticks once per traced
  event; `none` = never set).

Every observable action is recorded, clock-stamped, in a trace. -/

/-- Error classification variable `last_error_type` (line 313). -/
inductive ErrClass where
  | noErr      -- "NONE"
  | fatal      -- "FATAL"
  | transient  -- "TRANSIENT"
  | unknown    -- "UNKNOWN"
deriving DecidableEq, Repr

/-- Outcome of one HTTP GET on the download link: a connect/read timeout
(line 519), any other exception (line 533), or a response with status,
`Content-Length`, the total of `Content-Range` (the part after "/",
line 423), and the stream of chunk sizes. -/
inductive Resp where
  | timeout
  | exc
  | http (status : Nat) (contentLength : Option Nat)
      (contentRangeTotal : Option Nat) (chunks : List Nat)
deriving DecidableEq, Repr

/-- A traced event of one transfer. -/
inductive Ev where
  | check (set : Bool)                    -- read of the stop flag (is_set)
  | wait (secs : Nat) (interrupted : Bool) -- stop_event.wait(secs)
  | request (url : Str) (rangeStart : Nat) -- HTTP GET of file bytes
  | freshReq (result : Option Str)        -- _get_fresh_download_link call
  | write (bytes : Nat)                   -- one chunk appended to .part
  | delTmp                                -- unlink of the .part file
  | moveTmp                               -- shutil.move(.part, final)
deriving DecidableEq, Repr

/-- Result of `_download_content` (its return strings, line 278). -/
inductive DLResult where
  | downloaded
  | skipped
  | failed
deriving DecidableEq, Repr

/-- Environment of one transfer. -/
structure DLEnv where
  fresh : Nat → Option Str
  resp : Nat → Resp
  stopAt : Option Nat

/-- Whether the stop flag is set at clock time `clock`. -/
def stopIsSet (stopAt : Option Nat) (clock : Nat) : Bool :=
  match stopAt with
  | none => false
  | some t => t ≤ clock

/-- Mutable state of one transfer: the filesystem, the event clock, the
number of byte requests and fresh-link requests issued so far, and the
trace of clock-stamped events. -/
structure DLSt where
  fs : FPath → Option Nat
  clock : Nat
  reqIdx : Nat
  freshIdx : Nat
  trace : List (Nat × Ev)

/-- Record an event and advance the clock. -/
def emit (e : Ev) (st : DLSt) : DLSt :=
  { st with trace := st.trace ++ [(st.clock, e)], clock := st.clock + 1 }

/-- `self._stop_event.is_set()`. -/
def doCheck (env : DLEnv) (st : DLSt) : Bool × DLSt :=
  let b := stopIsSet env.stopAt st.clock
  (b, emit (Ev.check b) st)

/-- `self._stop_event.wait(secs)`: true when the flag is set at (or
becomes set during) the wait. -/
def doWait (env : DLEnv) (secs : Nat) (st : DLSt) : Bool × DLSt :=
  let b := stopIsSet env.stopAt st.clock
  (b, emit (Ev.wait secs b) st)

/-- Issue the HTTP GET for the file bytes (line 380).  The `Range`
header is present exactly when `rangeStart > 0` (lines 370-371); the
model records the start offset either way. -/
def doRequest (env : DLEnv) (url : Str) (rangeStart : Nat) (st : DLSt) :
    Resp × DLSt :=
  let st' := emit (Ev.request url rangeStart) st
  (env.resp st'.reqIdx, { st' with reqIdx := st'.reqIdx + 1 })

/-- `self._get_fresh_download_link(file_id)` (lines 224-267, 322). -/
def doFresh (env : DLEnv) (st : DLSt) : Option Str × DLSt :=
  let r := env.fresh st.freshIdx
  (r, emit (Ev.freshReq r) { st with freshIdx := st.freshIdx + 1 })

/-- Functional filesystem update. -/
def fsSet (fs : FPath → Option Nat) (p : FPath) (v : Option Nat) :
    FPath → Option Nat :=
  fun q => if q = p then v else fs q

/-- The status-code classification of lines 399-410: note that 416 never
reaches this code (it is handled earlier, lines 383-397), and that `200`
and `206` leave the previous classification unchanged. -/
def classifyStatus (status : Nat) (prev : ErrClass) : ErrClass :=
  if status = 403 ∨ status = 404 ∨ status = 410 ∨ status = 451 then
    ErrClass.fatal
  else if status = 502 ∨ status = 503 ∨ status = 504 then
    ErrClass.transient
  else if status ≠ 200 ∧ status ≠ 206 then
    ErrClass.unknown
  else prev

/-- The hard status list of line 412. -/
def badStatus (status : Nat) : Bool :=
  decide (status = 403 ∨ status = 404 ∨ status = 405 ∨ status = 410 ∨
    status = 451 ∨ status = 500 ∨ status = 502 ∨ status = 503 ∨
    status = 504)

/-- The chunk loop (lines 457-498): before writing each chunk the stop
flag is checked (line 460); empty chunks are skipped (line 466); each
written chunk grows the `.part` file.  Returns `false` when the stop
flag was observed (the source returns "FAILED" keeping all bytes). -/
def streamChunks (env : DLEnv) (tmp : FPath) :
    List Nat → DLSt → Bool × DLSt
  | [], st => (true, st)
  | c :: cs, st =>
    let p := doCheck env st
    if p.1 then (false, p.2)
    else if c = 0 then streamChunks env tmp cs p.2
    else
      streamChunks env tmp cs
        (emit (Ev.write c)
          { p.2 with fs := fsSet p.2.fs tmp (some ((p.2.fs tmp).getD 0 + c)) })

/-- What one inner-loop iteration does next: return from the whole
function, continue with the next attempt, or break out to a link
refresh (only the faulty-node branch of line 444 breaks). -/
inductive StepOut where
  | ret (r : DLResult)
  | contin
  | brk
deriving DecidableEq, Repr

/-- The backoff of lines 545-553, reached only from the two exception
handlers: wait `2^attempt` seconds unless this was the last attempt. -/
def afterException (env : DLEnv) (errCls : ErrClass)
    (attempt maxRetries : Nat) (st : DLSt) : StepOut × ErrClass × DLSt :=
  if attempt < maxRetries then
    let p := doWait env (2 ^ attempt) st
    if p.1 then (StepOut.ret DLResult.failed, errCls, p.2)
    else (StepOut.contin, errCls, p.2)
  else (StepOut.contin, errCls, st)

/-- Handling of one response inside the inner retry loop (lines
383-553), given the `.part` size `part_size` that the request was made
with.  Factored out of `attemptOnce` so that the three response shapes
are a direct pattern match. -/
def handleResp (env : DLEnv) (tmp tgt : FPath)
    (attempt maxRetries : Nat) (lastErr : ErrClass) (part_size : Nat) :
    Resp → DLSt → StepOut × ErrClass × DLSt
  | Resp.timeout, st =>                          -- lines 519-531
      afterException env ErrClass.transient attempt maxRetries st
  | Resp.exc, st =>                              -- lines 533-543
      afterException env ErrClass.unknown attempt maxRetries st
  | Resp.http status cl crt chunks, st =>
    if status = 416 then                         -- lines 383-397
      let st1 :=
        if st.fs tmp ≠ none then
          emit Ev.delTmp { st with fs := fsSet st.fs tmp none }
        else st
      let pw := doWait env 1 st1
      if pw.1 then (StepOut.ret DLResult.failed, lastErr, pw.2)
      else (StepOut.contin, lastErr, pw.2)
    else
      let e1 := classifyStatus status lastErr    -- lines 399-410
      if badStatus status ∨ (part_size = 0 ∧ status ≠ 200) ∨
          (0 < part_size ∧ status ≠ 206) then    -- lines 412-419
        (StepOut.contin, e1, st)
      else
        -- lines 421-423: the expected total size
        match (if part_size = 0 then cl else crt) with
        | none =>
          if status = 200 then                   -- lines 426-444: faulty node
            if attempt < maxRetries then
              let pw := doWait env (2 ^ attempt) st
              if pw.1 then (StepOut.ret DLResult.failed, ErrClass.transient, pw.2)
              else (StepOut.contin, ErrClass.transient, pw.2)
            else (StepOut.brk, ErrClass.transient, st)
          else                                   -- lines 446-452
            (StepOut.contin, ErrClass.unknown, st)
        | some total =>                          -- lines 455-516
          let ps := streamChunks env tmp chunks st
          if ps.1 = false then (StepOut.ret DLResult.failed, lastErr, ps.2)
          else
            let final_size := (ps.2.fs tmp).getD 0  -- line 500
            if final_size = total then           -- lines 502-508
              (StepOut.ret DLResult.downloaded, lastErr,
                emit Ev.moveTmp
                  { ps.2 with
                    fs := fsSet (fsSet ps.2.fs tmp none) tgt (some final_size) })
            else                                 -- lines 509-516
              (StepOut.contin, ErrClass.transient, ps.2)

/-- One iteration of the inner retry loop (lines 360-553): read the size
of the `.part` file, issue the request (with `Range` when the size is
positive) and handle the response. -/
def attemptOnce (env : DLEnv) (url : Str) (tmp tgt : FPath)
    (attempt maxRetries : Nat) (lastErr : ErrClass) (st : DLSt) :
    StepOut × ErrClass × DLSt :=
  let part_size : Nat := (st.fs tmp).getD 0     -- lines 361-377
  let pr := doRequest env url part_size st
  handleResp env tmp tgt attempt maxRetries lastErr part_size pr.1 pr.2

/-- The inner retry loop `for attempt in range(1, max_retries+1)`
(line 360): `remaining` counts the attempts still available, so the
1-based attempt number is `maxRetries - remaining + 1`.  `Except.error`
means the whole function returned; `Except.ok` means the loop ended
(exhausted or broke out) and a link refresh follows. -/
def innerLoop (env : DLEnv) (url : Str) (tmp tgt : FPath)
    (maxRetries : Nat) :
    Nat → ErrClass → DLSt → Except (DLResult × DLSt) (ErrClass × DLSt)
  | 0, lastErr, st => Except.ok (lastErr, st)
  | Nat.succ rem, lastErr, st =>
    match attemptOnce env url tmp tgt (maxRetries - rem) maxRetries lastErr st with
    | (StepOut.ret r, _, st') => Except.error (r, st')
    | (StepOut.brk, e, st') => Except.ok (e, st')
    | (StepOut.contin, e, st') => innerLoop env url tmp tgt maxRetries rem e st'

/-- Outcome of the refresh step of lines 316-354. -/
inductive RefOut where
  | fail
  | keep (url : Str)
deriving DecidableEq, Repr

/-- The link-refresh logic at the head of every outer iteration after the
first (lines 316-354): ask for a fresh link; no link aborts; the same
link is retried (after a fixed 5s cooldown) only when the last error was
transient, and aborts otherwise; a different link is adopted. -/
def refreshStep (env : DLEnv) (url : Str) (lastErr : ErrClass) (st : DLSt) :
    RefOut × DLSt :=
  let pf := doFresh env st
  match pf.1 with
  | none => (RefOut.fail, pf.2)                  -- lines 325-328
  | some newLink =>
    if newLink = url then
      match lastErr with
      | ErrClass.transient =>                    -- lines 331-338
        let pw := doWait env 5 pf.2
        if pw.1 then (RefOut.fail, pw.2) else (RefOut.keep url, pw.2)
      | _ => (RefOut.fail, pf.2)                 -- lines 340-350
    else (RefOut.keep newLink, pf.2)             -- lines 351-354

/-- The outer link-refresh loop `for refresh_attempt in range(3)`
(line 315), with `remaining` outer iterations left; `first` marks the
iteration with `refresh_attempt = 0`, which performs no refresh.  Every
iteration resets `last_error_type` (line 357) and runs the inner loop.
Falling off the loop returns "FAILED" (lines 558-563). -/
def outerLoop (env : DLEnv) (tmp tgt : FPath) (maxRetries : Nat) :
    Nat → Bool → Str → ErrClass → DLSt → DLResult × DLSt
  | 0, _, _, _, st => (DLResult.failed, st)
  | Nat.succ rem, first, url, lastErr, st =>
    if first then
      match innerLoop env url tmp tgt maxRetries maxRetries ErrClass.noErr st with
      | Except.error (r, st') => (r, st')
      | Except.ok (e, st') => outerLoop env tmp tgt maxRetries rem false url e st'
    else
      match refreshStep env url lastErr st with
      | (RefOut.fail, st') => (DLResult.failed, st')
      | (RefOut.keep u, st') =>
        match innerLoop env u tmp tgt maxRetries maxRetries ErrClass.noErr st' with
        | Except.error (r, st2) => (r, st2)
        | Except.ok (e, st2) => outerLoop env tmp tgt maxRetries rem false u e st2

/-- Fresh per-transfer state over a given filesystem. -/
def mkSt (fs : FPath → Option Nat) : DLSt :=
  { fs := fs, clock := 0, reqIdx := 0, freshIdx := 0, trace := [] }

/-- `file_path.exists() and file_path.stat().st_size > 0` (line 287). -/
def existsPos (v : Option Nat) : Bool :=
  match v with
  | some n => decide (0 < n)
  | none => false

/-- `_download_content` (lines 270-563): check the stop flag (line 281),
skip if the target already exists with positive size (lines 287-288),
otherwise run the retry state machine on the `.part` sibling
(`file_path.with_suffix(suffix + ".part")` is the name with ".part"
appended, line 290). -/
def download_content (env : DLEnv) (dir : FPath) (filename fid link : Str)
    (fs : FPath → Option Nat) : DLResult × DLSt :=
  let p := doCheck env (mkSt fs)
  if p.1 then (DLResult.failed, p.2)
  else
    let file_path := dir ++ [filename]
    if existsPos (p.2.fs file_path) then
      (DLResult.skipped, p.2)
    else
      let tmp_file := dir ++ [filename ++ ".part".toList]
      outerLoop env tmp_file file_path 3 3 true link ErrClass.noErr p.2

/-! ### The driver `_download` (lines 696-793, non-interactive path)

URL parsing (lines 703-710) and the interactive selection (lines
762-785) are outside the claims; the pipeline is modelled from the
content id on, with `GF_INTERACTIVE` unset.  Directory creation and the
`rmtree` of the freshly created (empty) content directory are not
tracked (directories are not part of the filesystem model). -/

/-- The Singles redirect for a lone file (lines 736-752): move the
record to the `Singles` directory (a sibling of the download root), and
if a file with the plain name already exists there, rename the record
with the id suffix. -/
def singlesAdjust (rootDir : FPath) (fs : FPath → Option Nat)
    (files : List FileRec) : List FileRec :=
  files.map (fun item =>
    let item' := { item with path := rootDir.dropLast ++ ["Singles".toList] }
    if fs (item'.path ++ [item'.filename]) ≠ none then
      { item' with filename := rename item'.filename item'.fid }
    else item')

/-- Sequential execution of `_download_content` over the record list
(the thread pool of `_threaded_downloads`, lines 126-178, bounded to
independent per-file work; records touch disjoint paths in the claims
below, so sequential composition models it).  `envs i` is the
environment of the `i`-th record. -/
def runDownloads (envs : Nat → DLEnv) :
    List FileRec → Nat → (FPath → Option Nat) →
    List (DLResult × DLSt) × (FPath → Option Nat)
  | [], _, fs => ([], fs)
  | r :: rs, i, fs =>
    let p := download_content (envs i) r.path r.filename r.fid r.link fs
    let q := runDownloads envs rs (i + 1) p.2.fs
    (p :: q.1, q.2)

/-- `_download` from the content id on (lines 715-793): resolve the tree
under `rootDir/contentId`, abort (returning `false`) when no file was
found, apply the Singles redirect when exactly one file was found, then
download every record.  Returns the bool `_download` returns, the
per-record outcomes, and the final filesystem. -/
def download (tree : GNode) (rootDir : FPath) (contentId : Str)
    (envs : Nat → DLEnv) (fs : FPath → Option Nat) :
    Bool × List (DLResult × DLSt) × (FPath → Option Nat) :=
  let content_dir := rootDir ++ [contentId]
  let files := parse_links_recursively tree content_dir []
  if files = [] then (false, [], fs)
  else
    let files' := if files.length = 1 then singlesAdjust rootDir fs files else files
    let q := runDownloads envs files' 0 fs
    (true, q.1, q.2)

/-! ### `Main.run` (lines 94-123) -/

/-- A traced event of `Main.run`: the 3-second inter-pass delay
(line 109) or one execution of `_parse_url_or_file` for pass `i` with
its boolean result (line 115). -/
inductive RunEv where
  | sleep3
  | passRun (i : Nat) (success : Bool)
deriving DecidableEq, Repr

/-- Environment of `Main.run`: the result `_parse_url_or_file` would
return on pass `i`, and the stop-flag schedule over the run-level
checks (check 0 = top of iteration 1, check 1 = end of iteration 1,
check 2 = top of iteration 2). -/
structure RunEnv where
  passResult : Nat → Bool
  stopAt : Option Nat

/-- `Main.run` (lines 94-123) with `MAX_PASSES = 2`: pass 1 runs unless
the stop flag is already set; when pass 1 reports no valid URL the run
ends (lines 118-120); otherwise, if the stop flag stays unset through
the end-of-iteration and top-of-iteration checks, a 3-second delay and
the verification pass follow. -/
def mainRun (env : RunEnv) : List RunEv :=
  if stopIsSet env.stopAt 0 then []
  else
    let s1 := env.passResult 1
    if ¬ s1 then [RunEv.passRun 1 s1]
    else if stopIsSet env.stopAt 1 then [RunEv.passRun 1 s1]
    else if stopIsSet env.stopAt 2 then [RunEv.passRun 1 s1]
    else [RunEv.passRun 1 s1, RunEv.sleep3, RunEv.passRun 2 (env.passResult 2)]

/-! ### Trace observations used by the claims -/

/-- Is this event a byte request? -/
def isReq (e : Ev) : Bool :=
  match e with
  | Ev.request _ _ => true
  | _ => false

/-- Is this event a fresh-link request? -/
def isFresh (e : Ev) : Bool :=
  match e with
  | Ev.freshReq _ => true
  | _ => false

/-- Number of byte requests in a trace. -/
def countReq (tr : List (Nat × Ev)) : Nat := tr.countP (fun p => isReq p.2)

/-- Number of fresh-link requests in a trace. -/
def countFresh (tr : List (Nat × Ev)) : Nat := tr.countP (fun p => isFresh p.2)

/-- Bytes contributed by one event. -/
def writeBytes (e : Ev) : Nat :=
  match e with
  | Ev.write n => n
  | _ => 0

/-- Total bytes written according to a trace. -/
def writeSum (tr : List (Nat × Ev)) : Nat :=
  (tr.map (fun p => writeBytes p.2)).sum

/-- An observation of the stop flag that came back positive: a check
that read `true`, or a wait that was interrupted. -/
def stopObs (e : Ev) : Bool :=
  match e with
  | Ev.check true => true
  | Ev.wait _ true => true
  | _ => false

/-- No positive stop observation anywhere in the trace. -/
def cleanTr (tr : List (Nat × Ev)) : Bool := tr.all (fun p => ! stopObs p.2)

/-- The trace ends with its one positive stop observation: after the
stop flag is observed, nothing further happens. -/
def stopLastD (tr : List (Nat × Ev)) : Prop :=
  ∃ pre c e, tr = pre ++ [(c, e)] ∧ cleanTr pre = true ∧ stopObs e = true

/-- Cancellation discipline of a finished transfer: either the stop flag
was never observed set, or the transfer returned `failed` and the
positive observation is the final event of its trace. -/
def okTrace (r : DLResult) (tr : List (Nat × Ev)) : Prop :=
  cleanTr tr = true ∨ (r = DLResult.failed ∧ stopLastD tr)

theorem cleanTr_append (a b : List (Nat × Ev)) :
    cleanTr (a ++ b) = (cleanTr a && cleanTr b) := by
  simp [cleanTr, List.all_append]

theorem countReq_append (a b : List (Nat × Ev)) :
    countReq (a ++ b) = countReq a + countReq b := by
  simp [countReq, List.countP_append]

theorem countFresh_append (a b : List (Nat × Ev)) :
    countFresh (a ++ b) = countFresh a + countFresh b := by
  simp [countFresh, List.countP_append]

theorem writeSum_append (a b : List (Nat × Ev)) :
    writeSum (a ++ b) = writeSum a + writeSum b := by
  simp [writeSum]

theorem stopLastD_append (a b : List (Nat × Ev)) (ha : cleanTr a = true)
    (hb : stopLastD b) : stopLastD (a ++ b) := by
  obtain ⟨pre, c, e, rfl, hpre, he⟩ := hb
  exact ⟨a ++ pre, c, e, by simp, by simp [cleanTr_append, ha, hpre], he⟩

theorem cleanTr_cons (x : Nat × Ev) (tr : List (Nat × Ev)) :
    cleanTr (x :: tr) = (! stopObs x.2 && cleanTr tr) := by
  simp [cleanTr]

theorem countReq_cons (x : Nat × Ev) (tr : List (Nat × Ev)) :
    countReq (x :: tr) = countReq tr + (if isReq x.2 then 1 else 0) := by
  simp [countReq, List.countP_cons]

theorem countFresh_cons (x : Nat × Ev) (tr : List (Nat × Ev)) :
    countFresh (x :: tr) = countFresh tr + (if isFresh x.2 then 1 else 0) := by
  simp [countFresh, List.countP_cons]

@[simp] theorem emit_fs (e : Ev) (st : DLSt) : (emit e st).fs = st.fs := rfl
@[simp] theorem emit_trace (e : Ev) (st : DLSt) :
    (emit e st).trace = st.trace ++ [(st.clock, e)] := rfl
@[simp] theorem emit_reqIdx (e : Ev) (st : DLSt) :
    (emit e st).reqIdx = st.reqIdx := rfl
@[simp] theorem emit_freshIdx (e : Ev) (st : DLSt) :
    (emit e st).freshIdx = st.freshIdx := rfl
@[simp] theorem emit_clock (e : Ev) (st : DLSt) :
    (emit e st).clock = st.clock + 1 := rfl

/-- Summary of the chunk loop: it only appends check/write events, never
issues requests, grows the `.part` file by exactly the written bytes,
touches no other path, and — the cancellation guarantee — a positive
stop observation can only be its final event, with the loop reporting
interruption. -/
theorem streamChunks_spec (env : DLEnv) (tmp : FPath) (chunks : List Nat) :
    ∀ (st : DLSt),
    ∃ d, (streamChunks env tmp chunks st).2.trace = st.trace ++ d ∧
      countReq d = 0 ∧ countFresh d = 0 ∧
      ((streamChunks env tmp chunks st).2.fs tmp).getD 0 =
        (st.fs tmp).getD 0 + writeSum d ∧
      (∀ q, q ≠ tmp → (streamChunks env tmp chunks st).2.fs q = st.fs q) ∧
      ((streamChunks env tmp chunks st).1 = true → cleanTr d = true) ∧
      ((streamChunks env tmp chunks st).1 = false → stopLastD d) ∧
      (streamChunks env tmp chunks st).2.reqIdx = st.reqIdx ∧
      (streamChunks env tmp chunks st).2.freshIdx = st.freshIdx := by
  induction chunks with
  | nil =>
    intro st
    exact ⟨[], by simp [streamChunks], by simp [countReq],
      by simp [countFresh], by simp [streamChunks, writeSum],
      by simp [streamChunks], by simp [cleanTr],
      by simp [streamChunks], by simp [streamChunks], by simp [streamChunks]⟩
  | cons c cs ih =>
    intro st
    by_cases hb : stopIsSet env.stopAt st.clock
    · refine ⟨[(st.clock, Ev.check true)], ?_, ?_, ?_, ?_, ?_, ?_, ?_, ?_, ?_⟩ <;>
        simp [streamChunks, doCheck, hb, countReq, countFresh, writeSum,
          writeBytes, List.countP_cons, isReq, isFresh, stopObs]
      exact ⟨[], st.clock, Ev.check true, rfl, by simp [cleanTr], by simp [stopObs]⟩
    · by_cases hc : c = 0
      · have hrun : streamChunks env tmp (c :: cs) st =
            streamChunks env tmp cs (emit (Ev.check false) st) := by
          simp [streamChunks, doCheck, hb, hc]
        obtain ⟨d, h1, h2, h3, h4, h5, h6, h7, h8, h9⟩ := ih (emit (Ev.check false) st)
        refine ⟨(st.clock, Ev.check false) :: d, ?_, ?_, ?_, ?_, ?_, ?_, ?_, ?_, ?_⟩
        · rw [hrun, h1]; simp
        · simpa [countReq, List.countP_cons, isReq] using h2
        · simpa [countFresh, List.countP_cons, isFresh] using h3
        · rw [hrun, h4]; simp [writeSum, writeBytes]
        · intro q hq; rw [hrun, h5 q hq]; simp
        · intro hres
          rw [hrun] at hres
          simp [cleanTr_cons, stopObs, h6 hres]
        · intro hres
          rw [hrun] at hres
          obtain ⟨pre, c2, e2, he, hp, ho⟩ := h7 hres
          exact ⟨(st.clock, Ev.check false) :: pre, c2, e2, by simp [he],
            by simp [cleanTr_cons, stopObs, hp], ho⟩
        · rw [hrun, h8]; simp
        · rw [hrun, h9]; simp
      · set st2 := emit (Ev.write c)
          { (emit (Ev.check false) st) with
            fs := fsSet (emit (Ev.check false) st).fs tmp
              (some (((emit (Ev.check false) st).fs tmp).getD 0 + c)) } with hst2
        obtain ⟨d, h1, h2, h3, h4, h5, h6, h7, h8, h9⟩ := ih st2
        have hrun : streamChunks env tmp (c :: cs) st = streamChunks env tmp cs st2 := by
          simp [streamChunks, doCheck, hb, hc, hst2]
        refine ⟨(st.clock, Ev.check false) :: (st.clock + 1, Ev.write c) :: d,
          ?_, ?_, ?_, ?_, ?_, ?_, ?_, ?_, ?_⟩
        · rw [hrun, h1]; simp [hst2]
        · simpa [countReq, List.countP_cons, isReq] using h2
        · simpa [countFresh, List.countP_cons, isFresh] using h3
        · rw [hrun]
          have hfs2 : (st2.fs tmp).getD 0 = (st.fs tmp).getD 0 + c := by
            simp [hst2, fsSet]
          rw [h4, hfs2]
          simp [writeSum, writeBytes]
          omega
        · intro q hq
          rw [hrun]
          rw [h5 q hq]
          simp [hst2, fsSet, hq]
        · intro hres
          rw [hrun] at hres
          simp [cleanTr_cons, stopObs, h6 hres]
        · intro hres
          rw [hrun] at hres
          obtain ⟨pre, c2, e2, he, hp, ho⟩ := h7 hres
          exact ⟨(st.clock, Ev.check false) :: (st.clock + 1, Ev.write c) :: pre,
            c2, e2, by simp [he], by simp [cleanTr_cons, stopObs, hp], ho⟩
        · rw [hrun, h8]; simp [hst2]
        · rw [hrun, h9]; simp [hst2]

/-- Summary of the exception backoff: no requests, state otherwise
untouched, and it returns from the function only on an interrupted wait
(with `failed`, the interruption being the final event). -/
theorem afterException_spec (env : DLEnv) (ec : ErrClass) (a m : Nat) (st : DLSt) :
    ∃ d, (afterException env ec a m st).2.2.trace = st.trace ++ d ∧
      countReq d = 0 ∧ countFresh d = 0 ∧
      (afterException env ec a m st).2.2.fs = st.fs ∧
      (∀ r, (afterException env ec a m st).1 = StepOut.ret r →
        r = DLResult.failed ∧ stopLastD d) ∧
      ((afterException env ec a m st).1 = StepOut.contin → cleanTr d = true) ∧
      (afterException env ec a m st).1 ≠ StepOut.brk ∧
      (afterException env ec a m st).2.1 = ec ∧
      (afterException env ec a m st).2.2.freshIdx = st.freshIdx := by
  by_cases hl : a < m
  · by_cases hb : stopIsSet env.stopAt st.clock
    · have hrun : afterException env ec a m st =
          (StepOut.ret DLResult.failed, ec, emit (Ev.wait (2 ^ a) true) st) := by
        simp [afterException, doWait, hl, hb]
      refine ⟨[(st.clock, Ev.wait (2 ^ a) true)], ?_, ?_, ?_, ?_, ?_, ?_, ?_, ?_, ?_⟩ <;>
        simp [hrun, countReq, countFresh, List.countP_cons, isReq, isFresh]
      exact ⟨[], st.clock, Ev.wait (2 ^ a) true, rfl, by simp [cleanTr],
        by simp [stopObs]⟩
    · have hrun : afterException env ec a m st =
          (StepOut.contin, ec, emit (Ev.wait (2 ^ a) false) st) := by
        simp [afterException, doWait, hl, hb]
      refine ⟨[(st.clock, Ev.wait (2 ^ a) false)], ?_, ?_, ?_, ?_, ?_, ?_, ?_, ?_, ?_⟩ <;>
        simp [hrun, countReq, countFresh, List.countP_cons, isReq, isFresh,
          cleanTr_cons, cleanTr, stopObs]
  · have hrun : afterException env ec a m st = (StepOut.contin, ec, st) := by
      simp [afterException, hl]
    refine ⟨[], ?_, ?_, ?_, ?_, ?_, ?_, ?_, ?_, ?_⟩ <;>
      simp [hrun, countReq, countFresh, cleanTr]

/-- Summary of the response handling: it issues no request and no
fresh-link call, every early return is either a completed download with
a clean trace or a stop-caused `failed` whose positive stop observation
is the final event, and continue/break leave a clean trace delta. -/
theorem handleResp_spec (env : DLEnv) (tmp tgt : FPath) (a m : Nat)
    (le : ErrClass) (ps : Nat) (r : Resp) (st : DLSt) :
    ∃ d, (handleResp env tmp tgt a m le ps r st).2.2.trace = st.trace ++ d ∧
      countReq d = 0 ∧ countFresh d = 0 ∧
      (∀ res, (handleResp env tmp tgt a m le ps r st).1 = StepOut.ret res →
        (res = DLResult.downloaded ∧ cleanTr d = true) ∨
        (res = DLResult.failed ∧ stopLastD d)) ∧
      ((handleResp env tmp tgt a m le ps r st).1 = StepOut.contin → cleanTr d = true) ∧
      ((handleResp env tmp tgt a m le ps r st).1 = StepOut.brk → cleanTr d = true) ∧
      (handleResp env tmp tgt a m le ps r st).2.2.freshIdx = st.freshIdx := by
  cases r with
  | timeout =>
    obtain ⟨d, h1, h2, h3, h4, h5, h6, h7, h8, h9⟩ :=
      afterException_spec env ErrClass.transient a m st
    exact ⟨d, h1, h2, h3,
      fun res hres => Or.inr (h5 res hres),
      h6, fun hb => absurd hb h7, h9⟩
  | exc =>
    obtain ⟨d, h1, h2, h3, h4, h5, h6, h7, h8, h9⟩ :=
      afterException_spec env ErrClass.unknown a m st
    exact ⟨d, h1, h2, h3,
      fun res hres => Or.inr (h5 res hres),
      h6, fun hb => absurd hb h7, h9⟩
  | http s cl crt ch =>
    by_cases hs : s = 416
    · -- 416: possible delTmp, then a 1 second interruptible wait
      by_cases hex : st.fs tmp ≠ none
      · by_cases hb : stopIsSet env.stopAt (st.clock + 1)
        · have hrun : handleResp env tmp tgt a m le ps (Resp.http s cl crt ch) st =
              (StepOut.ret DLResult.failed, le, emit (Ev.wait 1 true)
                (emit Ev.delTmp { st with fs := fsSet st.fs tmp none })) := by
            simp [handleResp, hs, hex, doWait, hb]
          refine ⟨[(st.clock, Ev.delTmp), (st.clock + 1, Ev.wait 1 true)],
            ?_, ?_, ?_, ?_, ?_, ?_, ?_⟩ <;>
            simp [hrun, countReq_cons, countFresh_cons, countReq,
              countFresh, isReq, isFresh]
          refine ⟨[(st.clock, Ev.delTmp)], st.clock + 1,
            Ev.wait 1 true, rfl, ?_, ?_⟩ <;> simp [cleanTr, stopObs]
        · have hrun : handleResp env tmp tgt a m le ps (Resp.http s cl crt ch) st =
              (StepOut.contin, le, emit (Ev.wait 1 false)
                (emit Ev.delTmp { st with fs := fsSet st.fs tmp none })) := by
            simp [handleResp, hs, hex, doWait, hb]
          refine ⟨[(st.clock, Ev.delTmp), (st.clock + 1, Ev.wait 1 false)],
            ?_, ?_, ?_, ?_, ?_, ?_, ?_⟩ <;>
            simp [hrun, countReq_cons, countFresh_cons, countReq,
              countFresh, isReq, isFresh, cleanTr, stopObs]
      · by_cases hb : stopIsSet env.stopAt st.clock
        · have hrun : handleResp env tmp tgt a m le ps (Resp.http s cl crt ch) st =
              (StepOut.ret DLResult.failed, le, emit (Ev.wait 1 true) st) := by
            simp [handleResp, hs, hex, doWait, hb]
          refine ⟨[(st.clock, Ev.wait 1 true)], ?_, ?_, ?_, ?_, ?_, ?_, ?_⟩ <;>
            simp [hrun, countReq_cons, countFresh_cons, countReq, countFresh,
              isReq, isFresh]
          refine ⟨[], st.clock, Ev.wait 1 true, rfl, ?_, ?_⟩ <;>
            simp [cleanTr, stopObs]
        · have hrun : handleResp env tmp tgt a m le ps (Resp.http s cl crt ch) st =
              (StepOut.contin, le, emit (Ev.wait 1 false) st) := by
            simp [handleResp, hs, hex, doWait, hb]
          refine ⟨[(st.clock, Ev.wait 1 false)], ?_, ?_, ?_, ?_, ?_, ?_, ?_⟩ <;>
            simp [hrun, countReq_cons, countFresh_cons, countReq, countFresh,
              isReq, isFresh, cleanTr, stopObs]
    · by_cases hcond : badStatus s = true ∨ (ps = 0 ∧ s ≠ 200) ∨ (0 < ps ∧ s ≠ 206)
      · have hrun : handleResp env tmp tgt a m le ps (Resp.http s cl crt ch) st =
            (StepOut.contin, classifyStatus s le, st) := by
          simp [handleResp, hs, hcond]
        refine ⟨[], ?_, ?_, ?_, ?_, ?_, ?_, ?_⟩ <;>
          simp [hrun, countReq, countFresh, cleanTr]
      · rw [not_or, not_or] at hcond
        obtain ⟨hA, hB, hC⟩ := hcond
        rcases hhs : (if ps = 0 then cl else crt) with _ | total
        · by_cases h200 : s = 200
          · -- the faulty-node branch requires ps = 0 (a positive ps with a
            -- 200 status is caught by the guard of line 412)
            have hps0 : ps = 0 := by
              by_contra hne
              exact hC ⟨Nat.pos_of_ne_zero hne, by simp [h200]⟩
            have hbad : badStatus 200 = false := rfl
            subst h200
            subst hps0
            have hcl : cl = none := by simpa using hhs
            by_cases ham : a < m
            · by_cases hb : stopIsSet env.stopAt st.clock
              · have hrun : handleResp env tmp tgt a m le 0 (Resp.http 200 cl crt ch) st =
                    (StepOut.ret DLResult.failed, ErrClass.transient,
                      emit (Ev.wait (2 ^ a) true) st) := by
                  simp [handleResp, hbad, hcl, ham, doWait, hb]
                refine ⟨[(st.clock, Ev.wait (2 ^ a) true)], ?_, ?_, ?_, ?_, ?_, ?_, ?_⟩ <;>
                  simp [hrun, countReq_cons, countFresh_cons, countReq, countFresh,
                    isReq, isFresh]
                refine ⟨[], st.clock, Ev.wait (2 ^ a) true, rfl, ?_, ?_⟩ <;>
                  simp [cleanTr, stopObs]
              · have hrun : handleResp env tmp tgt a m le 0 (Resp.http 200 cl crt ch) st =
                    (StepOut.contin, ErrClass.transient,
                      emit (Ev.wait (2 ^ a) false) st) := by
                  simp [handleResp, hbad, hcl, ham, doWait, hb]
                refine ⟨[(st.clock, Ev.wait (2 ^ a) false)], ?_, ?_, ?_, ?_, ?_, ?_, ?_⟩ <;>
                  simp [hrun, countReq_cons, countFresh_cons, countReq, countFresh,
                    isReq, isFresh, cleanTr, stopObs]
            · have hrun : handleResp env tmp tgt a m le 0 (Resp.http 200 cl crt ch) st =
                  (StepOut.brk, ErrClass.transient, st) := by
                simp [handleResp, hbad, hcl, ham]
              refine ⟨[], ?_, ?_, ?_, ?_, ?_, ?_, ?_⟩ <;>
                simp [hrun, countReq, countFresh, cleanTr]
          · -- a missing size with a non-200 status: the guard forces
            -- ps > 0 and s = 206 here
            have hps : ¬ ps = 0 := fun h0 => hB ⟨h0, h200⟩
            have h206 : s = 206 := by
              by_contra hne
              exact hC ⟨Nat.pos_of_ne_zero hps, hne⟩
            have hbad : badStatus 206 = false := rfl
            subst h206
            rw [if_neg hps] at hhs
            have hrun : handleResp env tmp tgt a m le ps (Resp.http 206 cl crt ch) st =
                (StepOut.contin, ErrClass.unknown, st) := by
              simp [handleResp, hbad, hhs, hps]
            refine ⟨[], ?_, ?_, ?_, ?_, ?_, ?_, ?_⟩ <;>
              simp [hrun, countReq, countFresh, cleanTr]
        · obtain ⟨ds, g1, g2, g3, g4, g5, g6, g7, g8, g9⟩ :=
            streamChunks_spec env tmp ch st
          cases hstr : (streamChunks env tmp ch st).1 with
          | false =>
            have hrun : handleResp env tmp tgt a m le ps (Resp.http s cl crt ch) st =
                (StepOut.ret DLResult.failed, le, (streamChunks env tmp ch st).2) := by
              simp [handleResp, hs, hA, hB, hC, hhs, hstr]
            refine ⟨ds, ?_, g2, g3, ?_, ?_, ?_, ?_⟩
            · rw [hrun]; exact g1
            · intro res hres
              rw [hrun] at hres
              exact Or.inr ⟨(StepOut.ret.inj hres).symm, g7 hstr⟩
            · intro hco; rw [hrun] at hco; exact absurd hco (by simp)
            · intro hbr; rw [hrun] at hbr; exact absurd hbr (by simp)
            · rw [hrun]; exact g9
          | true =>
            by_cases hfin : ((streamChunks env tmp ch st).2.fs tmp).getD 0 = total
            · have hrun : handleResp env tmp tgt a m le ps (Resp.http s cl crt ch) st =
                  (StepOut.ret DLResult.downloaded, le,
                    emit Ev.moveTmp
                      { (streamChunks env tmp ch st).2 with
                        fs := fsSet (fsSet (streamChunks env tmp ch st).2.fs tmp none)
                          tgt (some (((streamChunks env tmp ch st).2.fs tmp).getD 0)) }) := by
                simp [handleResp, hs, hA, hB, hC, hhs, hstr, hfin]
              refine ⟨ds ++ [((streamChunks env tmp ch st).2.clock, Ev.moveTmp)],
                ?_, ?_, ?_, ?_, ?_, ?_, ?_⟩
              · rw [hrun]; simp [g1]
              · rw [countReq_append, g2]; rfl
              · rw [countFresh_append, g3]; rfl
              · intro res hres
                rw [hrun] at hres
                refine Or.inl ⟨(StepOut.ret.inj hres).symm, ?_⟩
                rw [cleanTr_append, g6 hstr]; rfl
              · intro hco; rw [hrun] at hco; exact absurd hco (by simp)
              · intro hbr; rw [hrun] at hbr; exact absurd hbr (by simp)
              · rw [hrun]; simp [g9]
            · have hrun : handleResp env tmp tgt a m le ps (Resp.http s cl crt ch) st =
                  (StepOut.contin, ErrClass.transient, (streamChunks env tmp ch st).2) := by
                simp [handleResp, hs, hA, hB, hC, hhs, hstr, hfin]
              refine ⟨ds, ?_, g2, g3, ?_, ?_, ?_, ?_⟩
              · rw [hrun]; exact g1
              · intro res hres; rw [hrun] at hres; exact absurd hres (by simp)
              · intro _; exact g6 hstr
              · intro hbr; rw [hrun] at hbr; exact absurd hbr (by simp)
              · rw [hrun]; exact g9

/-- Summary of one inner-loop attempt: exactly one request, no
fresh-link call, and the same return/cleanness discipline as
`handleResp_spec`. -/
theorem attemptOnce_spec (env : DLEnv) (url : Str) (tmp tgt : FPath)
    (a m : Nat) (le : ErrClass) (st : DLSt) :
    ∃ d, (attemptOnce env url tmp tgt a m le st).2.2.trace = st.trace ++ d ∧
      countReq d = 1 ∧ countFresh d = 0 ∧
      (∀ res, (attemptOnce env url tmp tgt a m le st).1 = StepOut.ret res →
        (res = DLResult.downloaded ∧ cleanTr d = true) ∨
        (res = DLResult.failed ∧ stopLastD d)) ∧
      ((attemptOnce env url tmp tgt a m le st).1 = StepOut.contin → cleanTr d = true) ∧
      ((attemptOnce env url tmp tgt a m le st).1 = StepOut.brk → cleanTr d = true) ∧
      (attemptOnce env url tmp tgt a m le st).2.2.freshIdx = st.freshIdx := by
  have hrun : attemptOnce env url tmp tgt a m le st =
      handleResp env tmp tgt a m le ((st.fs tmp).getD 0)
        (env.resp st.reqIdx)
        { st with
          trace := st.trace ++ [(st.clock, Ev.request url ((st.fs tmp).getD 0))],
          clock := st.clock + 1, reqIdx := st.reqIdx + 1 } := by
    simp [attemptOnce, doRequest, emit]
  obtain ⟨d, h1, h2, h3, h4, h5, h6, h7⟩ :=
    handleResp_spec env tmp tgt a m le ((st.fs tmp).getD 0) (env.resp st.reqIdx)
      { st with
        trace := st.trace ++ [(st.clock, Ev.request url ((st.fs tmp).getD 0))],
        clock := st.clock + 1, reqIdx := st.reqIdx + 1 }
  refine ⟨(st.clock, Ev.request url ((st.fs tmp).getD 0)) :: d,
    ?_, ?_, ?_, ?_, ?_, ?_, ?_⟩
  · rw [hrun, h1]; simp
  · simp [countReq_cons, isReq, h2]
  · simp [countFresh_cons, isFresh, h3]
  · intro res hres
    rw [hrun] at hres
    rcases h4 res hres with ⟨hd, hc⟩ | ⟨hf, hsl⟩
    · exact Or.inl ⟨hd, by simp [cleanTr_cons, stopObs, hc]⟩
    · refine Or.inr ⟨hf, ?_⟩
      have := stopLastD_append [(st.clock, Ev.request url ((st.fs tmp).getD 0))] d
        (by rfl) hsl
      simpa using this
  · intro h
    rw [hrun] at h
    simp [cleanTr_cons, stopObs, h5 h]
  · intro h
    rw [hrun] at h
    simp [cleanTr_cons, stopObs, h6 h]
  · rw [hrun, h7]

/-- The state carried by an inner-loop outcome. -/
def innerSt : Except (DLResult × DLSt) (ErrClass × DLSt) → DLSt
  | Except.error (_, st) => st
  | Except.ok (_, st) => st

/-- Summary of the inner retry loop with `rem` attempts left: at most
`rem` requests and no fresh-link call; an early return is a clean
completed download or a stop-caused `failed` with the stop observation
last; falling out of the loop leaves a clean delta. -/
theorem innerLoop_spec (env : DLEnv) (url : Str) (tmp tgt : FPath) (m : Nat) :
    ∀ (rem : Nat) (le : ErrClass) (st : DLSt),
    ∃ d, (innerSt (innerLoop env url tmp tgt m rem le st)).trace = st.trace ++ d ∧
      countReq d ≤ rem ∧ countFresh d = 0 ∧
      (∀ r st', innerLoop env url tmp tgt m rem le st = Except.error (r, st') →
        (r = DLResult.downloaded ∧ cleanTr d = true) ∨
        (r = DLResult.failed ∧ stopLastD d)) ∧
      (∀ e st', innerLoop env url tmp tgt m rem le st = Except.ok (e, st') →
        cleanTr d = true) ∧
      (innerSt (innerLoop env url tmp tgt m rem le st)).freshIdx = st.freshIdx := by
  intro rem
  induction rem with
  | zero =>
    intro le st
    exact ⟨[], by simp [innerLoop, innerSt], by simp [countReq],
      by simp [countFresh], by simp [innerLoop], by simp [innerLoop, cleanTr],
      by simp [innerLoop, innerSt]⟩
  | succ rem ih =>
    intro le st
    obtain ⟨dA, a1, a2, a3, a4, a5, a6, a7⟩ :=
      attemptOnce_spec env url tmp tgt (m - rem) m le st
    rcases hA : attemptOnce env url tmp tgt (m - rem) m le st with ⟨out, e2, st2⟩
    have hst2tr : st2.trace = st.trace ++ dA := by rw [hA] at a1; exact a1
    have hst2fr : st2.freshIdx = st.freshIdx := by rw [hA] at a7; exact a7
    cases out with
    | ret r =>
      have hrun : innerLoop env url tmp tgt m (rem + 1) le st =
          Except.error (r, st2) := by
        simp [innerLoop, hA]
      refine ⟨dA, ?_, by omega, a3, ?_, ?_, ?_⟩
      · rw [hrun]; simpa [innerSt] using hst2tr
      · intro r' st' h
        rw [hrun] at h
        obtain ⟨hr, hst⟩ := Prod.mk.injEq .. ▸ Except.error.inj h
        subst hr
        exact a4 r (by rw [hA])
      · intro e st' h; rw [hrun] at h; exact absurd h (by simp)
      · rw [hrun]; simpa [innerSt] using hst2fr
    | brk =>
      have hrun : innerLoop env url tmp tgt m (rem + 1) le st =
          Except.ok (e2, st2) := by
        simp [innerLoop, hA]
      refine ⟨dA, ?_, by omega, a3, ?_, ?_, ?_⟩
      · rw [hrun]; simpa [innerSt] using hst2tr
      · intro r' st' h; rw [hrun] at h; exact absurd h (by simp)
      · intro e st' h
        exact a6 (by rw [hA])
      · rw [hrun]; simpa [innerSt] using hst2fr
    | contin =>
      have hclean : cleanTr dA = true := a5 (by rw [hA])
      have hrun : innerLoop env url tmp tgt m (rem + 1) le st =
          innerLoop env url tmp tgt m rem e2 st2 := by
        simp [innerLoop, hA]
      obtain ⟨dI, i1, i2, i3, i4, i5, i6⟩ := ih e2 st2
      refine ⟨dA ++ dI, ?_, ?_, ?_, ?_, ?_, ?_⟩
      · rw [hrun, i1, hst2tr]; simp
      · rw [countReq_append]; omega
      · rw [countFresh_append, a3, i3]
      · intro r st' h
        rw [hrun] at h
        rcases i4 r st' h with ⟨hr, hc⟩ | ⟨hr, hsl⟩
        · exact Or.inl ⟨hr, by simp [cleanTr_append, hclean, hc]⟩
        · exact Or.inr ⟨hr, stopLastD_append dA dI hclean hsl⟩
      · intro e st' h
        rw [hrun] at h
        simp [cleanTr_append, hclean, i5 e st' h]
      · rw [hrun, i6, hst2fr]

/-- Summary of the refresh step: no byte request, exactly one fresh-link
request, aborts are clean or stop-caused-with-stop-last, and keeping a
link leaves a clean delta. -/
theorem refreshStep_spec (env : DLEnv) (url : Str) (le : ErrClass) (st : DLSt) :
    ∃ d, (refreshStep env url le st).2.trace = st.trace ++ d ∧
      countReq d = 0 ∧ countFresh d = 1 ∧
      ((refreshStep env url le st).1 = RefOut.fail →
        cleanTr d = true ∨ stopLastD d) ∧
      (∀ u, (refreshStep env url le st).1 = RefOut.keep u → cleanTr d = true) := by
  rcases hf : env.fresh st.freshIdx with _ | nl
  · have hrun : refreshStep env url le st =
        (RefOut.fail, emit (Ev.freshReq none) { st with freshIdx := st.freshIdx + 1 }) := by
      simp [refreshStep, doFresh, hf]
    refine ⟨[(st.clock, Ev.freshReq none)], ?_, ?_, ?_, ?_, ?_⟩ <;>
      simp [hrun, countReq_cons, countFresh_cons, countReq, countFresh,
        isReq, isFresh, cleanTr, stopObs]
  · by_cases hu : nl = url
    · subst hu
      cases le with
      | transient =>
        by_cases hb : stopIsSet env.stopAt (st.clock + 1)
        · have hrun : refreshStep env nl ErrClass.transient st =
              (RefOut.fail, emit (Ev.wait 5 true)
                (emit (Ev.freshReq (some nl)) { st with freshIdx := st.freshIdx + 1 })) := by
            simp [refreshStep, doFresh, hf, doWait, hb]
          refine ⟨[(st.clock, Ev.freshReq (some nl)), (st.clock + 1, Ev.wait 5 true)],
            ?_, ?_, ?_, ?_, ?_⟩ <;>
            simp [hrun, countReq_cons, countFresh_cons, countReq, countFresh,
              isReq, isFresh]
          refine Or.inr ⟨[(st.clock, Ev.freshReq (some nl))], st.clock + 1,
            Ev.wait 5 true, rfl, ?_, ?_⟩ <;> simp [cleanTr, stopObs]
        · have hrun : refreshStep env nl ErrClass.transient st =
              (RefOut.keep nl, emit (Ev.wait 5 false)
                (emit (Ev.freshReq (some nl)) { st with freshIdx := st.freshIdx + 1 })) := by
            simp [refreshStep, doFresh, hf, doWait, hb]
          refine ⟨[(st.clock, Ev.freshReq (some nl)), (st.clock + 1, Ev.wait 5 false)],
            ?_, ?_, ?_, ?_, ?_⟩ <;>
            simp [hrun, countReq_cons, countFresh_cons, countReq, countFresh,
              isReq, isFresh, cleanTr, stopObs]
      | noErr =>
        have hrun : refreshStep env nl ErrClass.noErr st =
            (RefOut.fail, emit (Ev.freshReq (some nl)) { st with freshIdx := st.freshIdx + 1 }) := by
          simp [refreshStep, doFresh, hf]
        refine ⟨[(st.clock, Ev.freshReq (some nl))], ?_, ?_, ?_, ?_, ?_⟩ <;>
          simp [hrun, countReq_cons, countFresh_cons, countReq, countFresh,
            isReq, isFresh, cleanTr, stopObs]
      | fatal =>
        have hrun : refreshStep env nl ErrClass.fatal st =
            (RefOut.fail, emit (Ev.freshReq (some nl)) { st with freshIdx := st.freshIdx + 1 }) := by
          simp [refreshStep, doFresh, hf]
        refine ⟨[(st.clock, Ev.freshReq (some nl))], ?_, ?_, ?_, ?_, ?_⟩ <;>
          simp [hrun, countReq_cons, countFresh_cons, countReq, countFresh,
            isReq, isFresh, cleanTr, stopObs]
      | unknown =>
        have hrun : refreshStep env nl ErrClass.unknown st =
            (RefOut.fail, emit (Ev.freshReq (some nl)) { st with freshIdx := st.freshIdx + 1 }) := by
          simp [refreshStep, doFresh, hf]
        refine ⟨[(st.clock, Ev.freshReq (some nl))], ?_, ?_, ?_, ?_, ?_⟩ <;>
          simp [hrun, countReq_cons, countFresh_cons, countReq, countFresh,
            isReq, isFresh, cleanTr, stopObs]
    · have hrun : refreshStep env url le st =
          (RefOut.keep nl, emit (Ev.freshReq (some nl)) { st with freshIdx := st.freshIdx + 1 }) := by
        simp [refreshStep, doFresh, hf, hu]
      refine ⟨[(st.clock, Ev.freshReq (some nl))], ?_, ?_, ?_, ?_, ?_⟩ <;>
        simp [hrun, countReq_cons, countFresh_cons, countReq, countFresh,
          isReq, isFresh, cleanTr, stopObs]

/-- Summary of the outer loop with `rem` rounds left: at most `m` byte
requests per round, one fresh-link request per refreshing round (the
`first` round refreshes nothing), and the cancellation discipline of
`okTrace`. -/
theorem outerLoop_spec (env : DLEnv) (tmp tgt : FPath) (m : Nat) :
    ∀ (rem : Nat) (first : Bool) (url : Str) (le : ErrClass) (st : DLSt),
    ∃ d, (outerLoop env tmp tgt m rem first url le st).2.trace = st.trace ++ d ∧
      countReq d ≤ m * rem ∧
      countFresh d ≤ cond first (rem - 1) rem ∧
      (cleanTr d = true ∨
        ((outerLoop env tmp tgt m rem first url le st).1 = DLResult.failed ∧
          stopLastD d)) := by
  intro rem
  induction rem with
  | zero =>
    intro first url le st
    exact ⟨[], by simp [outerLoop], by simp [countReq],
      by simp [countFresh], Or.inl (by simp [cleanTr])⟩
  | succ rem ih =>
    intro first url le st
    cases first with
    | true =>
      obtain ⟨dI, i1, i2, i3, i4, i5, i6⟩ := innerLoop_spec env url tmp tgt m m le st
      rcases hI : innerLoop env url tmp tgt m m ErrClass.noErr st with ⟨r, st2⟩ | ⟨e, st2⟩
      · have hrun : outerLoop env tmp tgt m (rem + 1) true url le st = (r, st2) := by
          simp [outerLoop, hI]
        obtain ⟨dI', i1', i2', i3', i4', i5', i6'⟩ :=
          innerLoop_spec env url tmp tgt m m ErrClass.noErr st
        refine ⟨dI', ?_, ?_, ?_, ?_⟩
        · rw [hrun]
          have := i1'
          rw [hI] at this
          simpa [innerSt] using this
        · have : m ≤ m * (rem + 1) := by
            calc m = m * 1 := by omega
            _ ≤ m * (rem + 1) := Nat.mul_le_mul_left m (by omega)
          omega
        · simp [i3']
        · rcases i4' r st2 hI with ⟨hr, hc⟩ | ⟨hr, hsl⟩
          · exact Or.inl hc
          · exact Or.inr ⟨by rw [hrun, hr], hsl⟩
      · have hrun : outerLoop env tmp tgt m (rem + 1) true url le st =
            outerLoop env tmp tgt m rem false url e st2 := by
          simp [outerLoop, hI]
        obtain ⟨dI', i1', i2', i3', i4', i5', i6'⟩ :=
          innerLoop_spec env url tmp tgt m m ErrClass.noErr st
        have hcl : cleanTr dI' = true := i5' e st2 hI
        have hst2tr : st2.trace = st.trace ++ dI' := by
          have := i1'; rw [hI] at this; simpa [innerSt] using this
        obtain ⟨dO, o1, o2, o3, o4⟩ := ih false url e st2
        refine ⟨dI' ++ dO, ?_, ?_, ?_, ?_⟩
        · rw [hrun, o1, hst2tr]; simp
        · rw [countReq_append]
          have : m * rem + m = m * (rem + 1) := by ring
          omega
        · rw [countFresh_append, i3']
          have h : countFresh dO ≤ rem := o3
          show 0 + countFresh dO ≤ rem + 1 - 1
          omega
        · rcases o4 with hc | ⟨hf, hsl⟩
          · exact Or.inl (by simp [cleanTr_append, hcl, hc])
          · exact Or.inr ⟨by rw [hrun]; exact hf, stopLastD_append dI' dO hcl hsl⟩
    | false =>
      obtain ⟨dR, r1, r2, r3, r4, r5⟩ := refreshStep_spec env url le st
      rcases hR : refreshStep env url le st with ⟨ro, st2⟩
      have hst2tr : st2.trace = st.trace ++ dR := by
        have := r1; rw [hR] at this; exact this
      cases ro with
      | fail =>
        have hrun : outerLoop env tmp tgt m (rem + 1) false url le st =
            (DLResult.failed, st2) := by
          simp [outerLoop, hR]
        refine ⟨dR, ?_, ?_, ?_, ?_⟩
        · rw [hrun]; exact hst2tr
        · rw [r2]; exact Nat.zero_le _
        · rw [r3]; show 1 ≤ rem + 1; omega
        · rcases r4 (by rw [hR]) with hc | hsl
          · exact Or.inl hc
          · exact Or.inr ⟨by rw [hrun], hsl⟩
      | keep u =>
        have hclR : cleanTr dR = true := r5 u (by rw [hR])
        rcases hI : innerLoop env u tmp tgt m m ErrClass.noErr st2 with ⟨r, st3⟩ | ⟨e, st3⟩
        · have hrun : outerLoop env tmp tgt m (rem + 1) false url le st = (r, st3) := by
            simp [outerLoop, hR, hI]
          obtain ⟨dI, i1, i2, i3, i4, i5, i6⟩ :=
            innerLoop_spec env u tmp tgt m m ErrClass.noErr st2
          have hst3tr : st3.trace = st2.trace ++ dI := by
            have := i1; rw [hI] at this; simpa [innerSt] using this
          refine ⟨dR ++ dI, ?_, ?_, ?_, ?_⟩
          · rw [hrun, hst3tr, hst2tr]; simp
          · rw [countReq_append, r2]
            have : m ≤ m * (rem + 1) := by
              calc m = m * 1 := by omega
              _ ≤ m * (rem + 1) := Nat.mul_le_mul_left m (by omega)
            omega
          · rw [countFresh_append, r3, i3]; show 1 + 0 ≤ rem + 1; omega
          · rcases i4 r st3 hI with ⟨hr, hc⟩ | ⟨hr, hsl⟩
            · exact Or.inl (by simp [cleanTr_append, hclR, hc])
            · exact Or.inr ⟨by rw [hrun, hr], stopLastD_append dR dI hclR hsl⟩
        · have hrun : outerLoop env tmp tgt m (rem + 1) false url le st =
              outerLoop env tmp tgt m rem false u e st3 := by
            simp [outerLoop, hR, hI]
          obtain ⟨dI, i1, i2, i3, i4, i5, i6⟩ :=
            innerLoop_spec env u tmp tgt m m ErrClass.noErr st2
          have hclI : cleanTr dI = true := i5 e st3 hI
          have hst3tr : st3.trace = st2.trace ++ dI := by
            have := i1; rw [hI] at this; simpa [innerSt] using this
          obtain ⟨dO, o1, o2, o3, o4⟩ := ih false u e st3
          refine ⟨dR ++ dI ++ dO, ?_, ?_, ?_, ?_⟩
          · rw [hrun, o1, hst3tr, hst2tr]; simp
          · rw [countReq_append, countReq_append, r2]
            have : m * rem + m = m * (rem + 1) := by ring
            omega
          · rw [countFresh_append, countFresh_append, r3, i3]
            have h : countFresh dO ≤ rem := o3
            show 1 + 0 + countFresh dO ≤ rem + 1
            omega
          · have hclRI : cleanTr (dR ++ dI) = true := by
              simp [cleanTr_append, hclR, hclI]
            rcases o4 with hc | ⟨hf, hsl⟩
            · exact Or.inl (by simp [cleanTr_append, hclR, hclI, hc])
            · exact Or.inr ⟨by rw [hrun]; exact hf,
                stopLastD_append (dR ++ dI) dO hclRI hsl⟩

/-- Top-level summary of one transfer: at most 9 byte requests (3 per
link), at most 2 fresh-link requests, and the cancellation discipline
(`okTrace`: a positive stop observation is final and forces `failed`). -/
theorem download_content_spec (env : DLEnv) (dir : FPath)
    (filename fid link : Str) (fs : FPath → Option Nat) :
    countReq (download_content env dir filename fid link fs).2.trace ≤ 9 ∧
    countFresh (download_content env dir filename fid link fs).2.trace ≤ 2 ∧
    okTrace (download_content env dir filename fid link fs).1
      (download_content env dir filename fid link fs).2.trace := by
  by_cases hb : stopIsSet env.stopAt 0
  · have hrun : download_content env dir filename fid link fs =
        (DLResult.failed, emit (Ev.check true) (mkSt fs)) := by
      simp [download_content, doCheck, mkSt, hb]
    refine ⟨?_, ?_, Or.inr ⟨by rw [hrun], ?_⟩⟩ <;>
      simp [hrun, emit, mkSt, countReq, countFresh, List.countP_cons, isReq, isFresh]
    exact ⟨[], 0, Ev.check true, rfl, by rfl, by rfl⟩
  · by_cases hsk : existsPos (fs (dir ++ [filename]))
    · have hrun : download_content env dir filename fid link fs =
          (DLResult.skipped, emit (Ev.check false) (mkSt fs)) := by
        simp [download_content, doCheck, mkSt, hb, hsk]
      refine ⟨?_, ?_, Or.inl ?_⟩ <;>
        simp [hrun, emit, mkSt, countReq, countFresh, List.countP_cons,
          isReq, isFresh, cleanTr, stopObs]
    · have hrun : download_content env dir filename fid link fs =
          outerLoop env (dir ++ [filename ++ ".part".toList]) (dir ++ [filename])
            3 3 true link ErrClass.noErr (emit (Ev.check false) (mkSt fs)) := by
        simp [download_content, doCheck, mkSt, hb, hsk]
      obtain ⟨d, o1, o2, o3, o4⟩ :=
        outerLoop_spec env (dir ++ [filename ++ ".part".toList]) (dir ++ [filename])
          3 3 true link ErrClass.noErr (emit (Ev.check false) (mkSt fs))
      have htr : (download_content env dir filename fid link fs).2.trace =
          (0, Ev.check false) :: d := by
        rw [hrun, o1]; simp [emit, mkSt]
      refine ⟨?_, ?_, ?_⟩
      · rw [htr, countReq_cons]
        have h2 : (if isReq (0, Ev.check false).2 then 1 else 0) = 0 := rfl
        rw [h2]
        have h1 : countReq d ≤ 9 := by simpa using o2
        omega
      · rw [htr, countFresh_cons]
        have h2 : (if isFresh (0, Ev.check false).2 then 1 else 0) = 0 := rfl
        rw [h2]
        have h3 : countFresh d ≤ 2 := o3
        omega
      · rcases o4 with hc | ⟨hf, hsl⟩
        · exact Or.inl (by rw [htr]; simp [cleanTr_cons, stopObs, hc])
        · refine Or.inr ⟨by rw [hrun]; exact hf, ?_⟩
          rw [htr]
          have := stopLastD_append [(0, Ev.check false)] d (by rfl) hsl
          simpa using this

/-! ### Facts about the rename and the dedup pass -/

theorem pyStem_append_pySuffix (n : Str) : pyStem n ++ pySuffix n = n :=
  List.take_append_drop _ _

theorem rename_length (n fid : Str) :
    (rename n fid).length = n.length + 3 + (fid.take 8).length := by
  have h := congrArg List.length (pyStem_append_pySuffix n)
  simp only [List.length_append] at h
  simp [rename]
  omega

/-- The rename always changes the name (it inserts " (" and ")"). -/
theorem rename_ne (n fid : Str) : rename n fid ≠ n := by
  intro h
  have := congrArg List.length h
  rw [rename_length] at this
  omega

/-- For one filename, the rename is injective in the 8-character id
fragment it embeds. -/
theorem rename_inj8 (n i1 i2 : Str) (h : rename n i1 = rename n i2) :
    i1.take 8 = i2.take 8 := by
  unfold rename at h
  have h' : pyStem n ++ (' ' :: '(' :: (i1.take 8 ++ (')' :: pySuffix n))) =
      pyStem n ++ (' ' :: '(' :: (i2.take 8 ++ (')' :: pySuffix n))) := by
    simpa [List.append_assoc] using h
  have h1 := List.append_cancel_left h'
  have h2 := List.cons.inj h1
  have h3 := List.cons.inj h2.2
  exact List.append_cancel_right h3.2

/-- Two distinct positions whose elements both satisfy `p` force the
filtered list to have more than one element. -/
theorem one_lt_length_filter {α : Type} (p : α → Bool) :
    ∀ (l : List α) (i j : Nat) (hi : i < l.length) (hj : j < l.length),
    i ≠ j → p (l.get ⟨i, hi⟩) = true → p (l.get ⟨j, hj⟩) = true →
    1 < (l.filter p).length := by
  intro l
  induction l with
  | nil => intro i j hi _ _ _ _; exact absurd hi (by simp)
  | cons a t ih =>
    intro i j hi hj hne hpi hpj
    cases i with
    | zero =>
      cases j with
      | zero => exact absurd rfl hne
      | succ k =>
        simp only [List.get] at hpi hpj
        have hk : k < t.length := by simpa using hj
        have hmem : t.get ⟨k, hk⟩ ∈ t := List.get_mem t k hk
        have hmemf : t.get ⟨k, hk⟩ ∈ t.filter p :=
          List.mem_filter.mpr ⟨hmem, hpj⟩
        have hpos : 0 < (t.filter p).length := List.length_pos.mpr
          (fun he => by simp [he] at hmemf)
        simp [List.filter_cons, hpi]
        omega
    | succ k =>
      cases j with
      | zero =>
        simp only [List.get] at hpi hpj
        have hk : k < t.length := by simpa using hi
        have hmem : t.get ⟨k, hk⟩ ∈ t := List.get_mem t k hk
        have hmemf : t.get ⟨k, hk⟩ ∈ t.filter p :=
          List.mem_filter.mpr ⟨hmem, hpi⟩
        have hpos : 0 < (t.filter p).length := List.length_pos.mpr
          (fun he => by simp [he] at hmemf)
        simp [List.filter_cons, hpj]
        omega
      | succ k2 =>
        simp only [List.get] at hpi hpj
        have hk : k < t.length := by simpa using hi
        have hk2 : k2 < t.length := by simpa using hj
        have := ih k k2 hk hk2 (by omega) hpi hpj
        cases hpa : p a <;> simp [List.filter_cons, hpa] <;> omega

/-- Element `i` of the dedup output is the rename-step applied to
element `i` of the input. -/
theorem dedup_get (files : List FileRec) (i : Nat) (hi : i < files.length) :
    (dedup files).get ⟨i, by simpa [dedup] using hi⟩ =
      dedupRenameOne files (files.get ⟨i, hi⟩) := by
  simp [dedup]

/-! ### The resolver on flat folders (claim C5) -/

/-- On a forest of leaf files only, the child loop performs pure
accumulation: no recursive call, hence no interleaved dedup. -/
theorem parseKids_allFiles :
    ∀ (ch : GForest) (p : FPath) (files : List FileRec),
    allFiles ch = true → parseKids ch p files = accumKids ch p files
  | GForest.nil, _, _, _ => rfl
  | GForest.cons (GNode.gfile fid n l) rest, p, files, h => by
      have hh : allFiles rest = true := by simpa [allFiles] using h
      simp only [parseKids, accumKids]
      exact parseKids_allFiles rest p (files ++ [⟨p, n, l, fid⟩]) hh
  | GForest.cons (GNode.gfolder i nm ch) rest, p, files, h => by
      simp [allFiles] at h

/-! ### The skip path of `_download_content` (claim C3) -/

/-- When the stop flag is never set and the target file already exists
with positive size, a transfer returns `skipped` after the single entry
check: no request, no write, filesystem untouched. -/
theorem download_content_skip (env : DLEnv) (dir : FPath)
    (filename fid link : Str) (fs : FPath → Option Nat)
    (hstop : env.stopAt = none) (n : Nat)
    (htgt : fs (dir ++ [filename]) = some n) (hn : 0 < n) :
    download_content env dir filename fid link fs =
      (DLResult.skipped,
        { fs := fs, clock := 1, reqIdx := 0, freshIdx := 0,
          trace := [(0, Ev.check false)] }) := by
  simp [download_content, doCheck, mkSt, stopIsSet, hstop, existsPos,
    htgt, hn, emit]

/-- Sequentially downloading records whose targets all exist with
positive size (stop flag never set) yields `skipped` everywhere, leaves
the filesystem untouched and issues no request. -/
theorem runDownloads_skip (envs : Nat → DLEnv)
    (hstop : ∀ j, (envs j).stopAt = none) :
    ∀ (recs : List FileRec) (i : Nat) (fs : FPath → Option Nat),
    (∀ r ∈ recs, ∃ n, fs (r.path ++ [r.filename]) = some n ∧ 0 < n) →
    (runDownloads envs recs i fs).2 = fs ∧
    ∀ p ∈ (runDownloads envs recs i fs).1,
      p.1 = DLResult.skipped ∧ p.2.trace = [(0, Ev.check false)] ∧
      p.2.fs = fs := by
  intro recs
  induction recs with
  | nil => intro i fs _; exact ⟨rfl, by simp [runDownloads]⟩
  | cons r rs ih =>
    intro i fs hmem
    obtain ⟨n, hn1, hn2⟩ := hmem r (by simp)
    have hdc := download_content_skip (envs i) r.path r.filename r.fid r.link fs
      (hstop i) n hn1 hn2
    obtain ⟨ihfs, ihall⟩ := ih (i + 1) fs (fun q hq => hmem q (by simp [hq]))
    constructor
    · simp only [runDownloads, hdc]
      exact ihfs
    · intro p hp
      simp only [runDownloads, hdc] at hp
      rcases List.mem_cons.mp hp with hp1 | hp2
      · subst hp1; exact ⟨rfl, rfl, rfl⟩
      · exact ihall p hp2

/-! ### Behaviour under an all-503 (Transient) environment (claim C4) -/

/-- A 503 response: classified Transient, caught by the hard-status
guard, immediate continue with no extra event beyond the request. -/
theorem attemptOnce_503 (env : DLEnv) (url : Str) (tmp tgt : FPath)
    (a m : Nat) (le : ErrClass) (st : DLSt)
    (hresp : env.resp st.reqIdx = Resp.http 503 none none []) :
    attemptOnce env url tmp tgt a m le st =
      (StepOut.contin, ErrClass.transient,
        { st with
          trace := st.trace ++ [(st.clock, Ev.request url ((st.fs tmp).getD 0))],
          clock := st.clock + 1, reqIdx := st.reqIdx + 1 }) := by
  simp [attemptOnce, doRequest, emit, hresp, handleResp, classifyStatus, badStatus]

/-- Under an all-503 environment the inner loop always exhausts its
attempts with classification Transient. -/
theorem innerLoop_503 (env : DLEnv) (url : Str) (tmp tgt : FPath) (m : Nat)
    (hall : ∀ i, env.resp i = Resp.http 503 none none []) :
    ∀ (rem : Nat) (le : ErrClass) (st : DLSt), 1 ≤ rem →
    ∃ st', innerLoop env url tmp tgt m rem le st =
      Except.ok (ErrClass.transient, st') := by
  intro rem
  induction rem with
  | zero => intro le st h; omega
  | succ rem ih =>
    intro le st _
    have hA := attemptOnce_503 env url tmp tgt (m - rem) m le st (hall st.reqIdx)
    rcases Nat.eq_zero_or_pos rem with hz | hpos
    · subst hz
      simp only [Nat.sub_zero] at hA
      refine ⟨{ st with
        trace := st.trace ++ [(st.clock, Ev.request url ((st.fs tmp).getD 0))],
        clock := st.clock + 1, reqIdx := st.reqIdx + 1 }, ?_⟩
      simp [innerLoop, hA]
    · obtain ⟨st', h'⟩ := ih ErrClass.transient
        { st with
          trace := st.trace ++ [(st.clock, Ev.request url ((st.fs tmp).getD 0))],
          clock := st.clock + 1, reqIdx := st.reqIdx + 1 } hpos
      exact ⟨st', by simp [innerLoop, hA, h']⟩

/-- Under an all-503 environment (stop flag never set), every run of the
outer loop ends in `failed`, whatever the fresh links are. -/
theorem outerLoop_503 (env : DLEnv) (tmp tgt : FPath) (m : Nat)
    (hall : ∀ i, env.resp i = Resp.http 503 none none [])
    (hstop : env.stopAt = none) :
    ∀ (rem : Nat) (first : Bool) (url : Str) (le : ErrClass) (st : DLSt),
    1 ≤ m →
    (outerLoop env tmp tgt m rem first url le st).1 = DLResult.failed := by
  intro rem
  induction rem with
  | zero => intro first url le st hm; simp [outerLoop]
  | succ rem ih =>
    intro first url le st hm
    cases first with
    | true =>
      obtain ⟨st2, h2⟩ := innerLoop_503 env url tmp tgt m hall m ErrClass.noErr st hm
      have hrun : outerLoop env tmp tgt m (rem + 1) true url le st =
          outerLoop env tmp tgt m rem false url ErrClass.transient st2 := by
        simp [outerLoop, h2]
      rw [hrun]
      exact ih false url ErrClass.transient st2 hm
    | false =>
      rcases hf : env.fresh st.freshIdx with _ | nl
      · simp [outerLoop, refreshStep, doFresh, hf]
      · by_cases hu : nl = url
        · subst hu
          cases le with
          | transient =>
            obtain ⟨st3, h3⟩ := innerLoop_503 env nl tmp tgt m hall m ErrClass.noErr
              (emit (Ev.wait 5 false)
                (emit (Ev.freshReq (some nl)) { st with freshIdx := st.freshIdx + 1 })) hm
            have hrun : outerLoop env tmp tgt m (rem + 1) false nl ErrClass.transient st =
                outerLoop env tmp tgt m rem false nl ErrClass.transient st3 := by
              simp [outerLoop, refreshStep, doFresh, hf, doWait, stopIsSet, hstop, h3]
            rw [hrun]
            exact ih false nl ErrClass.transient st3 hm
          | noErr => simp [outerLoop, refreshStep, doFresh, hf]
          | fatal => simp [outerLoop, refreshStep, doFresh, hf]
          | unknown => simp [outerLoop, refreshStep, doFresh, hf]
        · obtain ⟨st3, h3⟩ := innerLoop_503 env nl tmp tgt m hall m ErrClass.noErr
            (emit (Ev.freshReq (some nl)) { st with freshIdx := st.freshIdx + 1 }) hm
          have hrun : outerLoop env tmp tgt m (rem + 1) false url le st =
              outerLoop env tmp tgt m rem false nl ErrClass.transient st3 := by
            simp [outerLoop, refreshStep, doFresh, hf, hu, h3]
          rw [hrun]
          exact ih false nl ErrClass.transient st3 hm

/-- Under an all-503 environment a transfer of a not-yet-present file
always ends `failed`. -/
theorem download_content_503 (env : DLEnv) (dir : FPath)
    (filename fid link : Str) (fs : FPath → Option Nat)
    (hall : ∀ i, env.resp i = Resp.http 503 none none [])
    (hstop : env.stopAt = none)
    (htgt : existsPos (fs (dir ++ [filename])) = false) :
    (download_content env dir filename fid link fs).1 = DLResult.failed := by
  have hrun : download_content env dir filename fid link fs =
      outerLoop env (dir ++ [filename ++ ".part".toList]) (dir ++ [filename])
        3 3 true link ErrClass.noErr (emit (Ev.check false) (mkSt fs)) := by
    simp [download_content, doCheck, mkSt, stopIsSet, hstop, htgt]
  rw [hrun]
  exact outerLoop_503 env _ _ 3 hall hstop 3 true link ErrClass.noErr _ (by omega)

/-! ### Resume correctness support (claim C6) -/

/-- With the stop flag never set, the chunk loop completes, the `.part`
file ends at exactly its old size plus the sum of the chunks, and no
other path changes. -/
theorem streamChunks_noStop (env : DLEnv) (tmp : FPath)
    (hstop : env.stopAt = none) :
    ∀ (chunks : List Nat) (st : DLSt) (P : Nat), st.fs tmp = some P →
    (streamChunks env tmp chunks st).1 = true ∧
    (streamChunks env tmp chunks st).2.fs tmp = some (P + chunks.sum) ∧
    ∀ q, q ≠ tmp → (streamChunks env tmp chunks st).2.fs q = st.fs q := by
  intro chunks
  induction chunks with
  | nil => intro st P hP; exact ⟨rfl, by simp [streamChunks, hP], fun q _ => rfl⟩
  | cons c cs ih =>
    intro st P hP
    have hb : stopIsSet env.stopAt st.clock = false := by simp [stopIsSet, hstop]
    by_cases hc : c = 0
    · have hrun : streamChunks env tmp (c :: cs) st =
          streamChunks env tmp cs (emit (Ev.check false) st) := by
        simp [streamChunks, doCheck, hb, hc]
      obtain ⟨h1, h2, h3⟩ := ih (emit (Ev.check false) st) P (by simpa using hP)
      subst hc
      exact ⟨by rw [hrun]; exact h1, by rw [hrun]; simpa using h2,
        fun q hq => by rw [hrun]; simpa using h3 q hq⟩
    · have hrun : streamChunks env tmp (c :: cs) st =
          streamChunks env tmp cs
            (emit (Ev.write c)
              { (emit (Ev.check false) st) with
                fs := fsSet (emit (Ev.check false) st).fs tmp
                  (some (((emit (Ev.check false) st).fs tmp).getD 0 + c)) }) := by
        simp [streamChunks, doCheck, hb, hc]
      have hP2 : (emit (Ev.write c)
          { (emit (Ev.check false) st) with
            fs := fsSet (emit (Ev.check false) st).fs tmp
              (some (((emit (Ev.check false) st).fs tmp).getD 0 + c)) }).fs tmp =
          some (P + c) := by
        simp [fsSet, hP]
      obtain ⟨h1, h2, h3⟩ := ih _ (P + c) hP2
      refine ⟨by rw [hrun]; exact h1, ?_, ?_⟩
      · rw [hrun, h2]
        have : P + c + cs.sum = P + (c :: cs).sum := by simp; omega
        rw [this]
      · intro q hq
        rw [hrun, h3 q hq]
        simp [fsSet, hq]

/-- The first event of every attempt is the byte request, issued at the
current size of the `.part` marker (the resume offset). -/
theorem attemptOnce_first_event (env : DLEnv) (url : Str) (tmp tgt : FPath)
    (a m : Nat) (le : ErrClass) (st : DLSt) :
    ∃ rest, (attemptOnce env url tmp tgt a m le st).2.2.trace =
      st.trace ++ (st.clock, Ev.request url ((st.fs tmp).getD 0)) :: rest := by
  have hrun : attemptOnce env url tmp tgt a m le st =
      handleResp env tmp tgt a m le ((st.fs tmp).getD 0)
        (env.resp st.reqIdx)
        { st with
          trace := st.trace ++ [(st.clock, Ev.request url ((st.fs tmp).getD 0))],
          clock := st.clock + 1, reqIdx := st.reqIdx + 1 } := by
    simp [attemptOnce, doRequest, emit]
  obtain ⟨d, h1, _⟩ := handleResp_spec env tmp tgt a m le ((st.fs tmp).getD 0)
    (env.resp st.reqIdx)
    { st with
      trace := st.trace ++ [(st.clock, Ev.request url ((st.fs tmp).getD 0))],
      clock := st.clock + 1, reqIdx := st.reqIdx + 1 }
  refine ⟨d, ?_⟩
  rw [hrun, h1]
  simp

/-- A response whose status does not match the expectation derived from
the resume offset (200 for a fresh start, 206 for a resume) can never
complete the download in this attempt. -/
theorem handleResp_no_dl (env : DLEnv) (tmp tgt : FPath) (a m : Nat)
    (le : ErrClass) (ps : Nat) (s : Nat) (cl crt : Option Nat) (ch : List Nat)
    (st : DLSt) (hcond : (ps = 0 ∧ s ≠ 200) ∨ (0 < ps ∧ s ≠ 206)) :
    (handleResp env tmp tgt a m le ps (Resp.http s cl crt ch) st).1 ≠
      StepOut.ret DLResult.downloaded := by
  by_cases hs : s = 416
  · by_cases hex : st.fs tmp ≠ none
    · by_cases hb : stopIsSet env.stopAt (st.clock + 1) <;>
        simp [handleResp, hs, hex, doWait, hb]
    · by_cases hb : stopIsSet env.stopAt st.clock <;>
        simp [handleResp, hs, hex, doWait, hb]
  · have hor : badStatus s = true ∨ (ps = 0 ∧ s ≠ 200) ∨ (0 < ps ∧ s ≠ 206) :=
      Or.inr hcond
    simp [handleResp, hs, hor]

/-- A resumed (206) response with a correct total: the stream runs, the
final size matches, the marker is moved onto the target and the attempt
returns `downloaded`. -/
theorem handleResp_206_ok (env : DLEnv) (tmp tgt : FPath) (a m : Nat)
    (le : ErrClass) (cl : Option Nat) (T : Nat) (ch : List Nat) (st : DLSt)
    (P : Nat) (hstop : env.stopAt = none) (hne : tmp ≠ tgt)
    (hfsP : st.fs tmp = some P) (hP : 0 < P) (hsum : P + ch.sum = T) :
    (handleResp env tmp tgt a m le P (Resp.http 206 cl (some T) ch) st).1 =
      StepOut.ret DLResult.downloaded ∧
    (handleResp env tmp tgt a m le P (Resp.http 206 cl (some T) ch) st).2.2.fs tgt =
      some T ∧
    (handleResp env tmp tgt a m le P (Resp.http 206 cl (some T) ch) st).2.2.fs tmp =
      none := by
  obtain ⟨hc, hft, hfo⟩ := streamChunks_noStop env tmp hstop ch st P hfsP
  have hP' : ¬ P = 0 := by omega
  have hfin : ((streamChunks env tmp ch st).2.fs tmp).getD 0 = T := by
    simp [hft, hsum]
  have hbad : badStatus 206 = false := rfl
  refine ⟨?_, ?_, ?_⟩ <;>
    simp [handleResp, hbad, hP', hc, hfin, fsSet, hne, emit]

/-- A resumed (206) response whose stream falls short (or long) of the
expected total: classified Transient and retried. -/
theorem handleResp_206_mismatch (env : DLEnv) (tmp tgt : FPath) (a m : Nat)
    (le : ErrClass) (cl : Option Nat) (T : Nat) (ch : List Nat) (st : DLSt)
    (P : Nat) (hstop : env.stopAt = none)
    (hfsP : st.fs tmp = some P) (hP : 0 < P) (hsum : P + ch.sum ≠ T) :
    (handleResp env tmp tgt a m le P (Resp.http 206 cl (some T) ch) st).1 =
      StepOut.contin ∧
    (handleResp env tmp tgt a m le P (Resp.http 206 cl (some T) ch) st).2.1 =
      ErrClass.transient := by
  obtain ⟨hc, hft, hfo⟩ := streamChunks_noStop env tmp hstop ch st P hfsP
  have hP' : ¬ P = 0 := by omega
  have hfin : ¬ ((streamChunks env tmp ch st).2.fs tmp).getD 0 = T := by
    simp [hft]; omega
  have hbad : badStatus 206 = false := rfl
  constructor <;> simp [handleResp, hbad, hP', hc, hfin]

/-- Exact request count of the inner loop under an all-503 environment:
one request per remaining attempt. -/
theorem innerLoop_503_count (env : DLEnv) (url : Str) (tmp tgt : FPath)
    (m : Nat) (hall : ∀ i, env.resp i = Resp.http 503 none none []) :
    ∀ (rem : Nat) (le : ErrClass) (st : DLSt),
    countReq (innerSt (innerLoop env url tmp tgt m rem le st)).trace =
      countReq st.trace + rem := by
  intro rem
  induction rem with
  | zero => intro le st; simp [innerLoop, innerSt]
  | succ rem ih =>
    intro le st
    have hA := attemptOnce_503 env url tmp tgt (m - rem) m le st (hall st.reqIdx)
    have hrun : innerLoop env url tmp tgt m (rem + 1) le st =
        innerLoop env url tmp tgt m rem ErrClass.transient
          { st with
            trace := st.trace ++ [(st.clock, Ev.request url ((st.fs tmp).getD 0))],
            clock := st.clock + 1, reqIdx := st.reqIdx + 1 } := by
      simp [innerLoop, hA]
    rw [hrun, ih]
    simp [countReq_append, countReq, List.countP_cons, isReq]
    omega

/-! ### Concrete trees and record lists used by counterexamples and
witnesses -/

/-- Root path used by the concrete resolution runs. -/
def pR : FPath := ["r".toList]

/-- Two same-named files in one folder. -/
def c1tree : GNode :=
  GNode.gfolder "rootid".toList "RT".toList
    (GForest.cons (GNode.gfile "AAAAAAAAx".toList "a.txt".toList "l1".toList)
      (GForest.cons (GNode.gfile "BBBBBBBBy".toList "a.txt".toList "l2".toList)
        GForest.nil))

/-- Two same-named records (concrete input of the dedup pass). -/
def c1files : List FileRec :=
  [⟨pR, "a.txt".toList, "l1".toList, "AAAAAAAAx".toList⟩,
   ⟨pR, "a.txt".toList, "l2".toList, "BBBBBBBBy".toList⟩]

/-- A nested tree where a later sibling's original name coincides with a
name produced by an earlier interleaved dedup pass. -/
def c5tree : GNode :=
  GNode.gfolder "rid".toList "RT".toList
    (GForest.cons
      (GNode.gfolder "sid".toList "sub".toList
        (GForest.cons (GNode.gfile "XXXXXXXXq".toList "a.txt".toList "l1".toList)
          (GForest.cons (GNode.gfile "YYYYYYYYq".toList "a.txt".toList "l2".toList)
            GForest.nil)))
      (GForest.cons
        (GNode.gfile "ZZZZZZZZq".toList "a (XXXXXXXX).txt".toList "l3".toList)
        GForest.nil))

/-- A flat tree where an untouched original name equals a renamed
name. -/
def c9tree : GNode :=
  GNode.gfolder "rootid".toList "RT".toList
    (GForest.cons (GNode.gfile "XXXXXXXXq".toList "a.txt".toList "l1".toList)
      (GForest.cons (GNode.gfile "YYYYYYYYq".toList "a.txt".toList "l2".toList)
        (GForest.cons
          (GNode.gfile "ZZZZZZZZq".toList "a (XXXXXXXX).txt".toList "l3".toList)
          GForest.nil)))

/-! ### Claim C1 -/

/-- C1 fails on the code: for two leaf records sharing the filename
"a.txt", the dedup pass renames BOTH of them (each with its own id
fragment); the first-discovered occurrence does not keep its original
filename, contradicting the claim that exactly N-1 records are renamed
and the first keeps its name. -/
theorem C1_counterexample :
    ((parse_links_recursively c1tree pR []).map FileRec.filename =
      ["a (AAAAAAAA).txt".toList, "a (BBBBBBBB).txt".toList]) ∧
    "a (AAAAAAAA).txt".toList ≠ "a.txt".toList := by
  constructor
  · decide
  · decide

/-- C1 (amended): in the global deduplication pass, EVERY record whose
filename occurs more than once in the set is renamed to
"<stem> (<first 8 chars of its own remote id>)<ext>" — the first
occurrence included, so no duplicated name survives unchanged — while a
record with a unique filename is left untouched. -/
theorem C1_all_duplicates_renamed (files : List FileRec) (i : Nat)
    (hi : i < files.length) :
    (1 < count (files.get ⟨i, hi⟩).filename files →
      ((dedup files).get ⟨i, by simpa [dedup] using hi⟩).filename =
        rename (files.get ⟨i, hi⟩).filename (files.get ⟨i, hi⟩).fid ∧
      ((dedup files).get ⟨i, by simpa [dedup] using hi⟩).filename ≠
        (files.get ⟨i, hi⟩).filename) ∧
    (¬ 1 < count (files.get ⟨i, hi⟩).filename files →
      (dedup files).get ⟨i, by simpa [dedup] using hi⟩ = files.get ⟨i, hi⟩) := by
  constructor
  · intro h
    rw [dedup_get]
    refine ⟨?_, ?_⟩
    · simp only [dedupRenameOne, if_pos h]
    · simp only [dedupRenameOne, if_pos h]
      exact rename_ne _ _
  · intro h
    rw [dedup_get files i hi]
    simp only [dedupRenameOne, if_neg h]

/-- Witness for C1 (amended) at the concrete two-record list. -/
theorem C1_witness :
    ((dedup c1files).get ⟨0, by decide⟩).filename =
      rename (c1files.get ⟨0, by decide⟩).filename
        (c1files.get ⟨0, by decide⟩).fid ∧
    ((dedup c1files).get ⟨0, by decide⟩).filename ≠
      (c1files.get ⟨0, by decide⟩).filename :=
  (C1_all_duplicates_renamed c1files 0 (by decide)).1 (by decide)

/-! ### Claim C5 -/

/-- C5 fails on the code: running the dedup pass after every processed
node is NOT equivalent to one single dedup pass over the complete record
set — on `c5tree` the interleaved passes rename the nested pair first,
and the final pass then sees a collision with the later sibling's
original name, producing different filenames than a single final pass
would. -/
theorem C5_counterexample :
    (parse_links_recursively c5tree pR []).map FileRec.filename ≠
      (specSinglePassRecords c5tree pR).map FileRec.filename := by
  decide

/-- C5 (amended): the interleaved dedup is a pure function of the final
record set only for resolutions without nested renames — for a flat
resolved tree (one folder whose children are all leaf files) the
resolver runs exactly one dedup pass over the complete accumulated set,
so its output coincides with the spec's single final pass; with nested
folders the two can differ (see the counterexample). -/
theorem C5_flat_single_pass (fid name : Str) (ch : GForest) (p : FPath)
    (hall : allFiles ch = true) :
    parse_links_recursively (GNode.gfolder fid name ch) p [] =
      specSinglePassRecords (GNode.gfolder fid name ch) p := by
  simp only [parse_links_recursively, specSinglePassRecords, accumNode]
  rw [parseKids_allFiles ch _ [] hall]

/-- Witness for C5 (amended) at the concrete flat two-file tree. -/
theorem C5_witness :
    parse_links_recursively c1tree pR [] = specSinglePassRecords c1tree pR :=
  C5_flat_single_pass "rootid".toList "RT".toList
    (GForest.cons (GNode.gfile "AAAAAAAAx".toList "a.txt".toList "l1".toList)
      (GForest.cons (GNode.gfile "BBBBBBBBy".toList "a.txt".toList "l2".toList)
        GForest.nil)) pR (by decide)

/-! ### Claim C9 -/

/-- C9 fails on the code: after one resolution pass the filenames need
not be pairwise distinct — in `c9tree` the record renamed from "a.txt"
collides with the untouched record originally named
"a (XXXXXXXX).txt". -/
theorem C9_counterexample :
    (parse_links_recursively c9tree pR []).get ⟨0, by decide⟩ ≠
      (parse_links_recursively c9tree pR []).get ⟨2, by decide⟩ ∧
    ((parse_links_recursively c9tree pR []).get ⟨0, by decide⟩).filename =
      ((parse_links_recursively c9tree pR []).get ⟨2, by decide⟩).filename := by
  constructor
  · decide
  · decide

/-- C9 (amended): uniqueness holds within one collision group — any two
distinct records that share their (current) filename receive distinct
names from the dedup pass provided the first 8 characters of their
remote ids differ; global uniqueness over the whole set can still fail
when a renamed name collides with an untouched one (see the
counterexample). -/
theorem C9_same_name_pairwise (files : List FileRec) (i j : Nat)
    (hi : i < files.length) (hj : j < files.length) (hne : i ≠ j)
    (hfn : (files.get ⟨i, hi⟩).filename = (files.get ⟨j, hj⟩).filename)
    (hid : (files.get ⟨i, hi⟩).fid.take 8 ≠ (files.get ⟨j, hj⟩).fid.take 8) :
    ((dedup files).get ⟨i, by simpa [dedup] using hi⟩).filename ≠
      ((dedup files).get ⟨j, by simpa [dedup] using hj⟩).filename := by
  have hcnt : 1 < count (files.get ⟨i, hi⟩).filename files := by
    have := one_lt_length_filter
      (fun r => decide (r.filename = (files.get ⟨i, hi⟩).filename)) files i j
      hi hj hne (by simp) (by simp only [decide_eq_true_eq]; exact hfn.symm)
    simpa [count] using this
  have hcntj : 1 < count (files.get ⟨j, hj⟩).filename files := hfn ▸ hcnt
  rw [dedup_get files i hi, dedup_get files j hj]
  simp only [dedupRenameOne, if_pos hcnt, if_pos hcntj]
  intro heq
  rw [hfn] at heq
  exact hid (rename_inj8 _ _ _ heq)

/-- Witness for C9 (amended) at the concrete two-record list. -/
theorem C9_witness :
    ((dedup c1files).get ⟨0, by decide⟩).filename ≠
      ((dedup c1files).get ⟨1, by decide⟩).filename :=
  C9_same_name_pairwise c1files 0 1 (by decide) (by decide) (by decide)
    (by decide) (by decide)

/-! ### Claim C2 -/

/-- Any faulty-node response (200 with no size, fresh start) records
classification Transient, in every sub-branch. -/
theorem handleResp_faulty_err (env : DLEnv) (tmp tgt : FPath) (a m : Nat)
    (le : ErrClass) (crt : Option Nat) (ch : List Nat) (st : DLSt) :
    (handleResp env tmp tgt a m le 0 (Resp.http 200 none crt ch) st).2.1 =
      ErrClass.transient := by
  have hbad : badStatus 200 = false := rfl
  by_cases ham : a < m
  · by_cases hb : stopIsSet env.stopAt st.clock <;>
      simp [handleResp, hbad, doWait, ham, hb]
  · simp [handleResp, hbad, ham]

/-- The environment of the concrete faulty-node run: every response is a
200 with no size header, and no fresh link is ever returned. -/
def faultyEnv : DLEnv :=
  { fresh := fun _ => none, resp := fun _ => Resp.http 200 none none [],
    stopAt := none }

/-- C2 fails on the code: a 200 response lacking a content-length is
classified TRANSIENT (line 427 of the source), not Unknown/faulty as the
claim states. -/
theorem C2_counterexample :
    (attemptOnce faultyEnv "u".toList ["t.part".toList] ["t".toList] 1 3
      ErrClass.noErr (mkSt (fun _ => none))).2.1 = ErrClass.transient ∧
    ErrClass.transient ≠ ErrClass.unknown := by
  constructor
  · rfl
  · decide

/-- C2 (amended): the classification recorded for the retry policy is:
403/404/410/451 are Fatal; 502/503/504 and connect/read timeouts are
Transient; any other status that is neither 200 nor 206 (and does not
hit one of the previous rules; 416 never reaches the classifier) is
Unknown, as is any non-timeout exception; and a 200 response lacking a
content-length — the faulty-node symptom — is TRANSIENT (not Unknown),
retried on the same link up to the attempt cap and then forcing a link
refresh (the concrete `faultyEnv` run makes exactly 3 attempts, then one
fresh-link request, then aborts with `failed`). -/
theorem C2_classification :
    (∀ prev, classifyStatus 403 prev = ErrClass.fatal ∧
      classifyStatus 404 prev = ErrClass.fatal ∧
      classifyStatus 410 prev = ErrClass.fatal ∧
      classifyStatus 451 prev = ErrClass.fatal) ∧
    (∀ prev, classifyStatus 502 prev = ErrClass.transient ∧
      classifyStatus 503 prev = ErrClass.transient ∧
      classifyStatus 504 prev = ErrClass.transient) ∧
    (∀ s prev, s ≠ 403 → s ≠ 404 → s ≠ 410 → s ≠ 451 → s ≠ 502 → s ≠ 503 →
      s ≠ 504 → s ≠ 200 → s ≠ 206 → classifyStatus s prev = ErrClass.unknown) ∧
    (∀ prev, classifyStatus 200 prev = prev ∧ classifyStatus 206 prev = prev) ∧
    (∀ env url tmp tgt a m le st, env.resp st.reqIdx = Resp.timeout →
      (attemptOnce env url tmp tgt a m le st).2.1 = ErrClass.transient) ∧
    (∀ env url tmp tgt a m le st, env.resp st.reqIdx = Resp.exc →
      (attemptOnce env url tmp tgt a m le st).2.1 = ErrClass.unknown) ∧
    (∀ env url (tmp tgt : FPath) a m le st (crt : Option Nat) (ch : List Nat),
      st.fs tmp = none → env.resp st.reqIdx = Resp.http 200 none crt ch →
      (attemptOnce env url tmp tgt a m le st).2.1 = ErrClass.transient) ∧
    ((download_content faultyEnv ["d".toList] "f".toList "id".toList "u".toList
        (fun _ => none)).1 = DLResult.failed ∧
      countReq (download_content faultyEnv ["d".toList] "f".toList "id".toList
        "u".toList (fun _ => none)).2.trace = 3 ∧
      countFresh (download_content faultyEnv ["d".toList] "f".toList "id".toList
        "u".toList (fun _ => none)).2.trace = 1) := by
  refine ⟨?_, ?_, ?_, ?_, ?_, ?_, ?_, ?_⟩
  · intro prev; refine ⟨rfl, rfl, rfl, rfl⟩
  · intro prev; refine ⟨rfl, rfl, rfl⟩
  · intro s prev h1 h2 h3 h4 h5 h6 h7 h8 h9
    simp [classifyStatus, h1, h2, h3, h4, h5, h6, h7, h8, h9]
  · intro prev; refine ⟨rfl, rfl⟩
  · intro env url tmp tgt a m le st hresp
    have hrun : attemptOnce env url tmp tgt a m le st =
        afterException env ErrClass.transient a m
          { st with
            trace := st.trace ++ [(st.clock, Ev.request url ((st.fs tmp).getD 0))],
            clock := st.clock + 1, reqIdx := st.reqIdx + 1 } := by
      simp [attemptOnce, doRequest, emit, hresp, handleResp]
    rw [hrun]
    obtain ⟨d, h1, h2, h3, h4, h5, h6, h7, h8, h9⟩ :=
      afterException_spec env ErrClass.transient a m
        { st with
          trace := st.trace ++ [(st.clock, Ev.request url ((st.fs tmp).getD 0))],
          clock := st.clock + 1, reqIdx := st.reqIdx + 1 }
    exact h8
  · intro env url tmp tgt a m le st hresp
    have hrun : attemptOnce env url tmp tgt a m le st =
        afterException env ErrClass.unknown a m
          { st with
            trace := st.trace ++ [(st.clock, Ev.request url ((st.fs tmp).getD 0))],
            clock := st.clock + 1, reqIdx := st.reqIdx + 1 } := by
      simp [attemptOnce, doRequest, emit, hresp, handleResp]
    rw [hrun]
    obtain ⟨d, h1, h2, h3, h4, h5, h6, h7, h8, h9⟩ :=
      afterException_spec env ErrClass.unknown a m
        { st with
          trace := st.trace ++ [(st.clock, Ev.request url ((st.fs tmp).getD 0))],
          clock := st.clock + 1, reqIdx := st.reqIdx + 1 }
    exact h8
  · intro env url tmp tgt a m le st crt ch htmp hresp
    have hrun : attemptOnce env url tmp tgt a m le st =
        handleResp env tmp tgt a m le 0 (Resp.http 200 none crt ch)
          { st with
            trace := st.trace ++ [(st.clock, Ev.request url 0)],
            clock := st.clock + 1, reqIdx := st.reqIdx + 1 } := by
      simp [attemptOnce, doRequest, emit, hresp, htmp]
    rw [hrun]
    exact handleResp_faulty_err env tmp tgt a m le crt ch _
  · refine ⟨rfl, ?_, ?_⟩ <;> rfl

/-- Witness for C2 (amended): the Unknown rule applied to status 500. -/
theorem C2_witness : classifyStatus 500 ErrClass.noErr = ErrClass.unknown :=
  C2_classification.2.2.1 500 ErrClass.noErr (by decide) (by decide) (by decide)
    (by decide) (by decide) (by decide) (by decide) (by decide) (by decide)

/-! ### Claim C4 -/

/-- C4: transfers are bounded — at most 3 same-link attempts per
link-refresh round (the inner loop), at most 2 link refreshes after the
original link, hence at most 9 requests in total; and when every
response is Transient (503), the transfer always terminates with
`failed` whatever fresh links the refreshes return. -/
theorem C4_retry_bounds :
    (∀ env (dir : FPath) (fn fid lk : Str) (fs : FPath → Option Nat),
      countReq (download_content env dir fn fid lk fs).2.trace ≤ 9 ∧
      countFresh (download_content env dir fn fid lk fs).2.trace ≤ 2) ∧
    (∀ env (url : Str) (tmp tgt : FPath) (le : ErrClass) (st : DLSt),
      countReq (innerSt (innerLoop env url tmp tgt 3 3 le st)).trace ≤
        countReq st.trace + 3) ∧
    (∀ env (dir : FPath) (fn fid lk : Str) (fs : FPath → Option Nat),
      (∀ i, env.resp i = Resp.http 503 none none []) → env.stopAt = none →
      existsPos (fs (dir ++ [fn])) = false →
      (download_content env dir fn fid lk fs).1 = DLResult.failed) := by
  refine ⟨?_, ?_, ?_⟩
  · intro env dir fn fid lk fs
    obtain ⟨h1, h2, h3⟩ := download_content_spec env dir fn fid lk fs
    exact ⟨h1, h2⟩
  · intro env url tmp tgt le st
    obtain ⟨d, i1, i2, i3, i4, i5, i6⟩ := innerLoop_spec env url tmp tgt 3 3 le st
    rw [i1, countReq_append]
    omega
  · intro env dir fn fid lk fs hall hstop htgt
    exact download_content_503 env dir fn fid lk fs hall hstop htgt

/-- An all-503 environment whose refreshes do return (new) links. -/
def env503 : DLEnv :=
  { fresh := fun _ => some "u2".toList,
    resp := fun _ => Resp.http 503 none none [], stopAt := none }

/-- Witness for C4 at the concrete all-503 environment. -/
theorem C4_witness :
    (download_content env503 ["d".toList] "f".toList "id".toList "u".toList
      (fun _ => none)).1 = DLResult.failed :=
  C4_retry_bounds.2.2 env503 ["d".toList] "f".toList "id".toList "u".toList
    (fun _ => none) (fun _ => rfl) rfl rfl

/-! ### Claim C6 -/

/-- C6: every attempt issues its byte request at the current size `P` of
the partial marker (the `Range` start; `P = 0` means an unranged
request); with `P > 0` only a 206 response can complete the transfer and
with `P = 0` only a 200 can; and on a hit the stream is appended to the
marker, the marker is moved onto the final filename exactly when its
final size equals the expected total `T` (the file then holds exactly
`T` bytes), while a size mismatch is classified Transient and
retried. -/
theorem C6_resume_correct :
    (∀ env (url : Str) (tmp tgt : FPath) a m le st, ∃ rest,
      (attemptOnce env url tmp tgt a m le st).2.2.trace =
        st.trace ++ (st.clock, Ev.request url ((st.fs tmp).getD 0)) :: rest) ∧
    (∀ env (url : Str) (tmp tgt : FPath) a m le st s (cl crt : Option Nat)
        (ch : List Nat) P,
      st.fs tmp = some P → 0 < P → env.resp st.reqIdx = Resp.http s cl crt ch →
      s ≠ 206 →
      (attemptOnce env url tmp tgt a m le st).1 ≠ StepOut.ret DLResult.downloaded) ∧
    (∀ env (url : Str) (tmp tgt : FPath) a m le st s (cl crt : Option Nat)
        (ch : List Nat),
      (st.fs tmp).getD 0 = 0 → env.resp st.reqIdx = Resp.http s cl crt ch →
      s ≠ 200 →
      (attemptOnce env url tmp tgt a m le st).1 ≠ StepOut.ret DLResult.downloaded) ∧
    (∀ env (url : Str) (tmp tgt : FPath) a m le st (cl : Option Nat) (T : Nat)
        (ch : List Nat) P,
      env.stopAt = none → tmp ≠ tgt → st.fs tmp = some P → 0 < P →
      env.resp st.reqIdx = Resp.http 206 cl (some T) ch →
      (P + ch.sum = T →
        (attemptOnce env url tmp tgt a m le st).1 =
          StepOut.ret DLResult.downloaded ∧
        (attemptOnce env url tmp tgt a m le st).2.2.fs tgt = some T ∧
        (attemptOnce env url tmp tgt a m le st).2.2.fs tmp = none) ∧
      (P + ch.sum ≠ T →
        (attemptOnce env url tmp tgt a m le st).1 = StepOut.contin ∧
        (attemptOnce env url tmp tgt a m le st).2.1 = ErrClass.transient)) := by
  refine ⟨?_, ?_, ?_, ?_⟩
  · intro env url tmp tgt a m le st
    exact attemptOnce_first_event env url tmp tgt a m le st
  · intro env url tmp tgt a m le st s cl crt ch P hfsP hP hresp hs
    have hps : (st.fs tmp).getD 0 = P := by simp [hfsP]
    have hrun : attemptOnce env url tmp tgt a m le st =
        handleResp env tmp tgt a m le P (Resp.http s cl crt ch)
          { st with
            trace := st.trace ++ [(st.clock, Ev.request url P)],
            clock := st.clock + 1, reqIdx := st.reqIdx + 1 } := by
      simp [attemptOnce, doRequest, emit, hresp, hps]
    rw [hrun]
    exact handleResp_no_dl env tmp tgt a m le P s cl crt ch _ (Or.inr ⟨hP, hs⟩)
  · intro env url tmp tgt a m le st s cl crt ch hps hresp hs
    have hrun : attemptOnce env url tmp tgt a m le st =
        handleResp env tmp tgt a m le 0 (Resp.http s cl crt ch)
          { st with
            trace := st.trace ++ [(st.clock, Ev.request url 0)],
            clock := st.clock + 1, reqIdx := st.reqIdx + 1 } := by
      simp [attemptOnce, doRequest, emit, hresp, hps]
    rw [hrun]
    exact handleResp_no_dl env tmp tgt a m le 0 s cl crt ch _ (Or.inl ⟨rfl, hs⟩)
  · intro env url tmp tgt a m le st cl T ch P hstop hne hfsP hP hresp
    have hps : (st.fs tmp).getD 0 = P := by simp [hfsP]
    have hrun : attemptOnce env url tmp tgt a m le st =
        handleResp env tmp tgt a m le P (Resp.http 206 cl (some T) ch)
          { st with
            trace := st.trace ++ [(st.clock, Ev.request url P)],
            clock := st.clock + 1, reqIdx := st.reqIdx + 1 } := by
      simp [attemptOnce, doRequest, emit, hresp, hps]
    constructor
    · intro hsum
      rw [hrun]
      exact handleResp_206_ok env tmp tgt a m le cl T ch _ P hstop hne
        (by simpa using hfsP) hP hsum
    · intro hsum
      rw [hrun]
      exact handleResp_206_mismatch env tmp tgt a m le cl T ch _ P hstop
        (by simpa using hfsP) hP hsum

/-- Environment of the concrete resume run: a correct 206 with the
remaining 2 bytes of a 5-byte file. -/
def env206 : DLEnv :=
  { fresh := fun _ => none,
    resp := fun _ => Resp.http 206 none (some 5) [2], stopAt := none }

/-- Initial filesystem of the concrete resume run: a 3-byte partial
marker. -/
def fs206 : FPath → Option Nat :=
  fun p => if p = ["d".toList, "f.part".toList] then some 3 else none

/-- Witness for C6 at the concrete resumed transfer (P = 3, T = 5). -/
theorem C6_witness :
    (attemptOnce env206 "u".toList ["d".toList, "f.part".toList]
      ["d".toList, "f".toList] 1 3 ErrClass.noErr (mkSt fs206)).1 =
      StepOut.ret DLResult.downloaded ∧
    (attemptOnce env206 "u".toList ["d".toList, "f.part".toList]
      ["d".toList, "f".toList] 1 3 ErrClass.noErr (mkSt fs206)).2.2.fs
      ["d".toList, "f".toList] = some 5 ∧
    (attemptOnce env206 "u".toList ["d".toList, "f.part".toList]
      ["d".toList, "f".toList] 1 3 ErrClass.noErr (mkSt fs206)).2.2.fs
      ["d".toList, "f.part".toList] = none :=
  ((C6_resume_correct.2.2.2 env206 "u".toList ["d".toList, "f.part".toList]
    ["d".toList, "f".toList] 1 3 ErrClass.noErr (mkSt fs206) none 5 [2] 3
    rfl (by decide) rfl (by decide) rfl).1) (by decide)

/-! ### Claim C7 -/

/-- C7: when the same-link attempt budget is exhausted a fresh link is
requested: no link aborts the transfer; an identical fresh link after a
Transient error triggers exactly one 5-second cooldown and another round
on the same link (an interrupted cooldown fails instead); an identical
fresh link after a Fatal or Unknown error aborts immediately with no
cooldown; a different fresh link is adopted, and the attempt counter
restarts — a full fresh round of 3 attempts runs on the adopted link. -/
theorem C7_refresh_policy :
    (∀ env (url : Str) le st, env.fresh st.freshIdx = none →
      (refreshStep env url le st).1 = RefOut.fail) ∧
    (∀ env (url : Str) st, env.fresh st.freshIdx = some url →
      stopIsSet env.stopAt (st.clock + 1) = false →
      refreshStep env url ErrClass.transient st =
        (RefOut.keep url, emit (Ev.wait 5 false)
          (emit (Ev.freshReq (some url)) { st with freshIdx := st.freshIdx + 1 }))) ∧
    (∀ env (url : Str) st, env.fresh st.freshIdx = some url →
      stopIsSet env.stopAt (st.clock + 1) = true →
      (refreshStep env url ErrClass.transient st).1 = RefOut.fail) ∧
    (∀ env (url : Str) st, env.fresh st.freshIdx = some url →
      refreshStep env url ErrClass.fatal st =
        (RefOut.fail,
          emit (Ev.freshReq (some url)) { st with freshIdx := st.freshIdx + 1 })) ∧
    (∀ env (url : Str) st, env.fresh st.freshIdx = some url →
      refreshStep env url ErrClass.unknown st =
        (RefOut.fail,
          emit (Ev.freshReq (some url)) { st with freshIdx := st.freshIdx + 1 })) ∧
    (∀ env (url : Str) le st (nl : Str), env.fresh st.freshIdx = some nl →
      nl ≠ url →
      refreshStep env url le st =
        (RefOut.keep nl,
          emit (Ev.freshReq (some nl)) { st with freshIdx := st.freshIdx + 1 })) ∧
    (∀ env (tmp tgt : FPath) (url : Str) le st (nl : Str),
      (∀ i, env.resp i = Resp.http 503 none none []) →
      env.fresh st.freshIdx = some nl → nl ≠ url →
      (outerLoop env tmp tgt 3 1 false url le st).1 = DLResult.failed ∧
      countReq (outerLoop env tmp tgt 3 1 false url le st).2.trace =
        countReq st.trace + 3) := by
  refine ⟨?_, ?_, ?_, ?_, ?_, ?_, ?_⟩
  · intro env url le st hf
    simp [refreshStep, doFresh, hf]
  · intro env url st hf hb
    simp [refreshStep, doFresh, hf, doWait, hb]
  · intro env url st hf hb
    simp [refreshStep, doFresh, hf, doWait, hb]
  · intro env url st hf
    simp [refreshStep, doFresh, hf]
  · intro env url st hf
    simp [refreshStep, doFresh, hf]
  · intro env url le st nl hf hne
    simp [refreshStep, doFresh, hf, hne]
  · intro env tmp tgt url le st nl hall hf hne
    obtain ⟨st3, h3⟩ := innerLoop_503 env nl tmp tgt 3 hall 3 ErrClass.noErr
      (emit (Ev.freshReq (some nl)) { st with freshIdx := st.freshIdx + 1 })
      (by omega)
    have hrun : outerLoop env tmp tgt 3 1 false url le st =
        (DLResult.failed, st3) := by
      simp [outerLoop, refreshStep, doFresh, hf, hne, h3]
    refine ⟨by rw [hrun], ?_⟩
    have hcnt := innerLoop_503_count env nl tmp tgt 3 hall 3 ErrClass.noErr
      (emit (Ev.freshReq (some nl)) { st with freshIdx := st.freshIdx + 1 })
    rw [h3] at hcnt
    simp only [innerSt] at hcnt
    rw [hrun]
    simp only at hcnt ⊢
    rw [hcnt]
    simp [countReq_append, countReq, List.countP_cons, isReq]

/-- Witness for C7: the no-link abort at a concrete state. -/
theorem C7_witness :
    (refreshStep faultyEnv "u".toList ErrClass.transient (mkSt (fun _ => none))).1 =
      RefOut.fail :=
  C7_refresh_policy.1 faultyEnv "u".toList ErrClass.transient
    (mkSt (fun _ => none)) rfl

/-! ### Claim C3 -/

/-- Download root used by the concrete pipeline runs ("Videos" under the
base directory, line 70 of the source). -/
def c3root : FPath := ["base".toList, "Videos".toList]

/-- Content id of the concrete pipeline runs. -/
def c3cid : Str := "cid".toList

/-- A tree resolving to one lone file (triggers the Singles redirect). -/
def cxtree : GNode :=
  GNode.gfolder "cid-id".toList "cid".toList
    (GForest.cons (GNode.gfile "ZZZZZZZZ9".toList "a.txt".toList "lnk".toList)
      GForest.nil)

/-- Filesystem after a previous complete run of `cxtree`: the lone
50-byte file sits fully downloaded in the Singles directory. -/
def cxfs : FPath → Option Nat :=
  fun p => if p = ["base".toList, "Singles".toList, "a.txt".toList] then some 50
    else none

/-- Environments of the re-run: the server would serve the 50-byte file
again. -/
def cxenvs : Nat → DLEnv :=
  fun _ =>
    { fresh := fun _ => none,
      resp := fun _ => Resp.http 200 (some 50) none [50], stopAt := none }

/-- C3 fails on the code for single-file trees: re-running the pipeline
against a tree whose only file is already fully downloaded does NOT
yield `Skipped` — the Singles redirect (lines 736-752) sees the existing
file, renames the record with the id suffix and downloads all 50 bytes
again under the new name. -/
theorem C3_counterexample :
    cxfs ["base".toList, "Singles".toList, "a.txt".toList] = some 50 ∧
    (download cxtree c3root c3cid cxenvs cxfs).2.1.map Prod.fst =
      [DLResult.downloaded] ∧
    (download cxtree c3root c3cid cxenvs cxfs).2.1.map
      (fun p => writeSum p.2.trace) = [50] ∧
    DLResult.downloaded ≠ DLResult.skipped := by
  refine ⟨rfl, rfl, rfl, by decide⟩

/-- C3 (amended): the pre-check holds as stated — a target that already
exists with positive size is skipped with no request issued — and the
whole-pipeline idempotence holds for every tree resolving to two or more
records (no Singles redirect): re-running resolve+download over a fully
downloaded tree yields `Skipped` for every record, transfers zero bytes
(each trace is the lone entry stop-check) and leaves the filesystem
unchanged.  Single-file trees are redirected to Singles and re-download
under an id-suffixed name (see the counterexample). -/
theorem C3_idempotence_multi (tree : GNode) (rootDir : FPath)
    (contentId : Str) (envs : Nat → DLEnv) (fs : FPath → Option Nat)
    (hstop : ∀ j, (envs j).stopAt = none)
    (hlen : 2 ≤ (parse_links_recursively tree (rootDir ++ [contentId]) []).length)
    (hfull : ∀ r ∈ parse_links_recursively tree (rootDir ++ [contentId]) [],
      ∃ n, fs (r.path ++ [r.filename]) = some n ∧ 0 < n) :
    (download tree rootDir contentId envs fs).1 = true ∧
    (∀ p ∈ (download tree rootDir contentId envs fs).2.1,
      p.1 = DLResult.skipped ∧ p.2.trace = [(0, Ev.check false)]) ∧
    (download tree rootDir contentId envs fs).2.2 = fs := by
  have hne : parse_links_recursively tree (rootDir ++ [contentId]) [] ≠ [] := by
    intro h
    rw [h] at hlen
    simp at hlen
  have hl1 : ¬ (parse_links_recursively tree (rootDir ++ [contentId]) []).length = 1 := by
    omega
  have hrun : download tree rootDir contentId envs fs =
      (true,
        (runDownloads envs
          (parse_links_recursively tree (rootDir ++ [contentId]) []) 0 fs).1,
        (runDownloads envs
          (parse_links_recursively tree (rootDir ++ [contentId]) []) 0 fs).2) := by
    simp [download, hne, hl1]
  obtain ⟨hfs, hall⟩ := runDownloads_skip envs hstop
    (parse_links_recursively tree (rootDir ++ [contentId]) []) 0 fs hfull
  rw [hrun]
  exact ⟨rfl, fun p hp => ⟨(hall p hp).1, (hall p hp).2.1⟩, hfs⟩

/-- A tree resolving to two (distinctly named) files. -/
def c3tree : GNode :=
  GNode.gfolder "cid-id".toList "cid".toList
    (GForest.cons (GNode.gfile "AAAAAAAA1".toList "a.txt".toList "l1".toList)
      (GForest.cons (GNode.gfile "BBBBBBBB1".toList "b.txt".toList "l2".toList)
        GForest.nil))

/-- The two records `c3tree` resolves to. -/
def c3rec1 : FileRec :=
  ⟨c3root ++ [c3cid], "a.txt".toList, "l1".toList, "AAAAAAAA1".toList⟩

/-- Second record of `c3tree`. -/
def c3rec2 : FileRec :=
  ⟨c3root ++ [c3cid], "b.txt".toList, "l2".toList, "BBBBBBBB1".toList⟩

/-- Filesystem with both targets of `c3tree` fully downloaded. -/
def c3fs : FPath → Option Nat :=
  fun p =>
    if p = c3rec1.path ++ [c3rec1.filename] then some 50
    else if p = c3rec2.path ++ [c3rec2.filename] then some 60
    else none

/-- Environments of the `c3tree` re-run. -/
def c3envs : Nat → DLEnv :=
  fun _ => { fresh := fun _ => none, resp := fun _ => Resp.exc, stopAt := none }

/-- Witness for C3 (amended) at the concrete two-file re-run. -/
theorem C3_witness :
    (download c3tree c3root c3cid c3envs c3fs).1 = true ∧
    (∀ p ∈ (download c3tree c3root c3cid c3envs c3fs).2.1,
      p.1 = DLResult.skipped ∧ p.2.trace = [(0, Ev.check false)]) ∧
    (download c3tree c3root c3cid c3envs c3fs).2.2 = c3fs :=
  C3_idempotence_multi c3tree c3root c3cid c3envs c3fs (fun _ => rfl)
    (by decide)
    (by
      intro r hr
      have hl : parse_links_recursively c3tree (c3root ++ [c3cid]) [] =
          [c3rec1, c3rec2] := by decide
      rw [hl] at hr
      rcases List.mem_cons.mp hr with h1 | h2
      · subst h1
        exact ⟨50, rfl, by decide⟩
      · have h2' : r = c3rec2 := by simpa using h2
        subst h2'
        exact ⟨60, rfl, by decide⟩)

/-! ### Claim C8 -/

/-- Environment of the 416-after-stop run: the stop flag becomes set at
clock 1 (right after the entry check), and the pending request comes
back 416. -/
def env8 : DLEnv :=
  { fresh := fun _ => none, resp := fun _ => Resp.http 416 none none [],
    stopAt := some 1 }

/-- Filesystem of the 416-after-stop run: a 100-byte partial marker. -/
def fs8 : FPath → Option Nat :=
  fun p => if p = ["d".toList, "f.part".toList] then some 100 else none

/-- C8 fails on the code as stated: once the stop flag is set, an
in-flight transfer can still DELETE its partial marker — a 416 response
unlinks the `.part` file (line 393) before any stop check, so with the
flag set at clock 1 the 100-byte marker is deleted at clock 2 and only
the wait at clock 3 observes the flag and fails.  The marker does not
remain "exactly as large as the last fully-written chunk". -/
theorem C8_counterexample :
    env8.stopAt = some 1 ∧
    fs8 ["d".toList, "f.part".toList] = some 100 ∧
    (download_content env8 ["d".toList] "f".toList "id".toList "u".toList
      fs8).2.trace =
      [(0, Ev.check false), (1, Ev.request "u".toList 100), (2, Ev.delTmp),
        (3, Ev.wait 1 true)] ∧
    (download_content env8 ["d".toList] "f".toList "id".toList "u".toList
      fs8).2.fs ["d".toList, "f.part".toList] = none ∧
    (download_content env8 ["d".toList] "f".toList "id".toList "u".toList
      fs8).1 = DLResult.failed := by
  refine ⟨rfl, rfl, rfl, rfl, rfl⟩

/-- C8 (amended): once the stop flag is OBSERVED (at the entry check, a
chunk boundary, or any backoff/cooldown wait), the transfer returns
`failed` immediately — a positive stop observation is always the final
traced event; a transfer that starts with the flag set performs no
action at all; and the chunk loop grows the partial marker by exactly
the bytes of its fully-written chunks, with an interrupted stream ending
on its stop observation.  (Between the instant the flag is set and the
next observation point the code can still act — in particular the 416
recovery path deletes the corrupted marker; see the counterexample.) -/
theorem C8_cancellation :
    (∀ env (dir : FPath) (fn fid lk : Str) (fs : FPath → Option Nat),
      okTrace (download_content env dir fn fid lk fs).1
        (download_content env dir fn fid lk fs).2.trace) ∧
    (∀ env (dir : FPath) (fn fid lk : Str) (fs : FPath → Option Nat),
      stopIsSet env.stopAt 0 = true →
      (download_content env dir fn fid lk fs).1 = DLResult.failed ∧
      (download_content env dir fn fid lk fs).2.trace = [(0, Ev.check true)] ∧
      ∀ p, (download_content env dir fn fid lk fs).2.fs p = fs p) ∧
    (∀ env (tmp : FPath) (chunks : List Nat) (st : DLSt), ∃ d,
      (streamChunks env tmp chunks st).2.trace = st.trace ++ d ∧
      ((streamChunks env tmp chunks st).2.fs tmp).getD 0 =
        (st.fs tmp).getD 0 + writeSum d ∧
      ((streamChunks env tmp chunks st).1 = false → stopLastD d)) := by
  refine ⟨?_, ?_, ?_⟩
  · intro env dir fn fid lk fs
    exact (download_content_spec env dir fn fid lk fs).2.2
  · intro env dir fn fid lk fs hb
    have hrun : download_content env dir fn fid lk fs =
        (DLResult.failed, emit (Ev.check true) (mkSt fs)) := by
      simp [download_content, doCheck, mkSt, hb]
    exact ⟨by rw [hrun], by rw [hrun]; rfl, fun p => by rw [hrun]; rfl⟩
  · intro env tmp chunks st
    obtain ⟨d, h1, h2, h3, h4, h5, h6, h7, h8, h9⟩ :=
      streamChunks_spec env tmp chunks st
    exact ⟨d, h1, h4, h7⟩

/-- Environment whose stop flag is set from the very start. -/
def env8w : DLEnv :=
  { fresh := fun _ => none, resp := fun _ => Resp.exc, stopAt := some 0 }

/-- Witness for C8 (amended): a transfer entered with the flag already
set does nothing. -/
theorem C8_witness :
    (download_content env8w ["d".toList] "f".toList "id".toList "u".toList
      (fun _ => none)).1 = DLResult.failed ∧
    (download_content env8w ["d".toList] "f".toList "id".toList "u".toList
      (fun _ => none)).2.trace = [(0, Ev.check true)] ∧
    ∀ p, (download_content env8w ["d".toList] "f".toList "id".toList "u".toList
      (fun _ => none)).2.fs p = (fun _ => (none : Option Nat)) p :=
  C8_cancellation.2.1 env8w ["d".toList] "f".toList "id".toList "u".toList
    (fun _ => none) rfl

/-! ### Claim C10 -/

/-- Number of `_parse_url_or_file` executions in a run trace. -/
def countPasses (evs : List RunEv) : Nat :=
  evs.countP (fun e =>
    match e with
    | RunEv.passRun _ _ => true
    | _ => false)

/-- C10: `Main.run` executes the parse-and-download procedure at most
twice; the verification pass (pass 2) runs exactly when the main pass
ran, processed at least one valid URL, and the stop flag stayed unset
through the surrounding checks; it is then preceded by the 3-second
delay; and a main pass with no valid input ends the run after one
pass. -/
theorem C10_two_pass_run (env : RunEnv) :
    countPasses (mainRun env) ≤ 2 ∧
    (RunEv.passRun 2 (env.passResult 2) ∈ mainRun env ↔
      (stopIsSet env.stopAt 0 = false ∧ env.passResult 1 = true ∧
       stopIsSet env.stopAt 1 = false ∧ stopIsSet env.stopAt 2 = false)) ∧
    (stopIsSet env.stopAt 0 = false → env.passResult 1 = false →
      mainRun env = [RunEv.passRun 1 false]) ∧
    (stopIsSet env.stopAt 0 = false → env.passResult 1 = true →
      stopIsSet env.stopAt 1 = false → stopIsSet env.stopAt 2 = false →
      mainRun env = [RunEv.passRun 1 true, RunEv.sleep3,
        RunEv.passRun 2 (env.passResult 2)]) := by
  by_cases h0 : stopIsSet env.stopAt 0
  · simp [mainRun, h0, countPasses]
  · cases hp1 : env.passResult 1 with
    | false => simp [mainRun, h0, hp1, countPasses]
    | true =>
      by_cases h1 : stopIsSet env.stopAt 1
      · simp [mainRun, h0, hp1, h1, countPasses]
      · by_cases h2 : stopIsSet env.stopAt 2
        · simp [mainRun, h0, hp1, h1, h2, countPasses]
        · simp [mainRun, h0, hp1, h1, h2, countPasses, List.countP_cons]

/-- Witness for C10: the full two-pass run at a concrete environment. -/
theorem C10_witness :
    mainRun { passResult := fun _ => true, stopAt := none } =
      [RunEv.passRun 1 true, RunEv.sleep3, RunEv.passRun 2 true] :=
  (C10_two_pass_run { passResult := fun _ => true, stopAt := none }).2.2.2
    rfl rfl rfl rfl

end GFD
